import Mathlib

/-!
# wayland-osd: verification of the transport, framing and display state machine

This file gives a shallow embedding of the core of the `wayland-osd`
repository and proves properties of it.

* Byte streams are modelled as `List Nat` (each element a byte value).
  Rust `String` values are modelled as their UTF-8 byte sequences
  (`List Nat`), which is exactly what a Rust `String` is.
* `OsdMessage` mirrors the server's struct of the same name
  (`wayland-osd-server/src/main.rs`).
* `serializeOsd` models `serde_json::to_string` on `OsdMessage` (derived
  `Serialize`: all six fields in declaration order, `None ↦ null`,
  strings escaped exactly as `serde_json` escapes them).
* `fromJsonOsd` models `serde_json::from_str::<OsdMessage>` for this flat
  struct: a JSON object with string/integer/boolean/null members in any
  order, arbitrary whitespace, duplicate known fields rejected, unknown
  scalar members ignored, `i32` range enforced on numeric fields.
  (Nested arrays/objects inside unknown members are not modelled; no
  claim exercises them.)
* `utf8Valid` models `String::from_utf8` validation (strict UTF-8,
  as implemented by `core::str`).
* `scanBytes`/`processBytes`/`processChunks` model the NUL-delimited
  frame-decoding loop inside `connect_activate`
  (`wayland-osd-server/src/main.rs`, the `idle_add_local` closure).
* `handle_message` and the timer model (`Sys`, `fireTimer`) mirror
  `handle_message` and the glib timeout bookkeeping of the server.
-/

/-- `MAX_MESSAGE_SIZE` from the server read loop. -/
def MAX_MESSAGE_SIZE : Nat := 8192

/-- Byte values of an ASCII string. -/
def ascii (s : String) : List Nat := s.toList.map Char.toNat

/-- No byte of the list is the NUL delimiter. -/
def NoZero (l : List Nat) : Prop := ∀ x ∈ l, x ≠ 0

instance (l : List Nat) : Decidable (NoZero l) := by
  unfold NoZero; infer_instance

/-- The server's message struct (`OsdMessage` in
`wayland-osd-server/src/main.rs`).  Rust strings are modelled by their
UTF-8 bytes; `i32` fields by `Int` (the `i32` range is enforced where the
code enforces it, at deserialization). -/
structure OsdMessage where
  message_type : List Nat
  value : Option Int
  max_value : Option Int
  text : Option (List Nat)
  muted : Option Bool
  device_name : Option (List Nat)
deriving DecidableEq

/-- UTF-8 continuation byte (`0x80..0xBF`). -/
def contB (b : Nat) : Bool := decide (0x80 ≤ b) && decide (b < 0xC0)

/-- Constraint on the first continuation byte of a 3-byte sequence
(excludes overlong encodings and surrogates, as `core::str` does). -/
def lead3 (b c1 : Nat) : Bool :=
  if b = 0xE0 then decide (0xA0 ≤ c1) && decide (c1 < 0xC0)
  else if b = 0xED then decide (0x80 ≤ c1) && decide (c1 < 0xA0)
  else contB c1

/-- Constraint on the first continuation byte of a 4-byte sequence
(excludes overlong encodings and code points above U+10FFFF). -/
def lead4 (b c1 : Nat) : Bool :=
  if b = 0xF0 then decide (0x90 ≤ c1) && decide (c1 < 0xC0)
  else if b = 0xF4 then decide (0x80 ≤ c1) && decide (c1 < 0x90)
  else contB c1

/-- Strict UTF-8 validity of a byte sequence; models the check done by
`String::from_utf8` in the server read loop.  A lead byte `< 0xC2` that
is not ASCII is invalid; `0xC2..0xDF` needs one continuation byte,
`0xE0..0xEF` two (with the `lead3` restriction), `0xF0..0xF4` three
(with the `lead4` restriction); anything above is invalid.  Written
with one arm per available tail length so that each equation is flat. -/
def utf8Valid : List Nat → Bool
  | [] => true
  | b :: c1 :: c2 :: c3 :: r =>
    if b < 0x80 then utf8Valid (c1 :: c2 :: c3 :: r)
    else if b < 0xC2 then false
    else if b < 0xE0 then contB c1 && utf8Valid (c2 :: c3 :: r)
    else if b < 0xF0 then lead3 b c1 && contB c2 && utf8Valid (c3 :: r)
    else if b < 0xF5 then lead4 b c1 && contB c2 && contB c3 && utf8Valid r
    else false
  | [b, c1, c2] =>
    if b < 0x80 then utf8Valid [c1, c2]
    else if b < 0xC2 then false
    else if b < 0xE0 then contB c1 && utf8Valid [c2]
    else if b < 0xF0 then lead3 b c1 && contB c2
    else false
  | [b, c1] =>
    if b < 0x80 then utf8Valid [c1]
    else if b < 0xC2 then false
    else if b < 0xE0 then contB c1
    else false
  | [b] => decide (b < 0x80)

/-- Lowercase hex digit byte for a value `< 16` (as `serde_json` emits in
`\u00xx` escapes). -/
def hexDigit (d : Nat) : Nat := if d < 10 then 0x30 + d else 0x57 + d

/-- `serde_json`'s escaping of one byte inside a JSON string: `"`, `\`
and control bytes are escaped (`\b \t \n \f \r` short forms, `\u00xx`
otherwise); everything else, including UTF-8 continuation bytes, is
emitted verbatim. -/
def escByte (b : Nat) : List Nat :=
  if b = 0x22 then [0x5C, 0x22]
  else if b = 0x5C then [0x5C, 0x5C]
  else if b = 0x08 then [0x5C, 0x62]
  else if b = 0x09 then [0x5C, 0x74]
  else if b = 0x0A then [0x5C, 0x6E]
  else if b = 0x0C then [0x5C, 0x66]
  else if b = 0x0D then [0x5C, 0x72]
  else if b < 0x20 then [0x5C, 0x75, 0x30, 0x30, hexDigit (b / 16), hexDigit (b % 16)]
  else [b]

/-- JSON-escape a whole byte string. -/
def escape : List Nat → List Nat
  | [] => []
  | b :: r => escByte b ++ escape r

/-- Decimal digit bytes of a natural number, most significant first
(auxiliary, fuel-driven so that it evaluates in the kernel). -/
def natDigitsAux : Nat → Nat → List Nat
  | 0, _ => []
  | f + 1, n => if n < 10 then [0x30 + n] else natDigitsAux f (n / 10) ++ [0x30 + n % 10]

/-- Decimal digit bytes of a natural number. -/
def natDigits (n : Nat) : List Nat := natDigitsAux (n + 1) n

/-- Decimal serialization of an integer, as `serde_json` prints an `i32`. -/
def intBytes (n : Int) : List Nat :=
  if n < 0 then 0x2D :: natDigits n.natAbs else natDigits n.toNat

/-- A serialized JSON string: quote, escaped contents, quote. -/
def jStr (s : List Nat) : List Nat := 0x22 :: (escape s ++ [0x22])

/-- Serialization of an `Option<String>` field (`None ↦ null`). -/
def jOptStr : Option (List Nat) → List Nat
  | none => ascii "null"
  | some s => jStr s

/-- Serialization of an `Option<i32>` field (`None ↦ null`). -/
def jOptInt : Option Int → List Nat
  | none => ascii "null"
  | some n => intBytes n

/-- Serialization of an `Option<bool>` field (`None ↦ null`). -/
def jOptBool : Option Bool → List Nat
  | none => ascii "null"
  | some true => ascii "true"
  | some false => ascii "false"

/-- Bytes of `"type":` (opening key of the serialized struct). -/
def kType : List Nat := [0x22, 0x74, 0x79, 0x70, 0x65, 0x22, 0x3A]

/-- Bytes of `,"value":`. -/
def kValue : List Nat := [0x2C, 0x22, 0x76, 0x61, 0x6C, 0x75, 0x65, 0x22, 0x3A]

/-- Bytes of `,"max_value":`. -/
def kMax : List Nat :=
  [0x2C, 0x22, 0x6D, 0x61, 0x78, 0x5F, 0x76, 0x61, 0x6C, 0x75, 0x65, 0x22, 0x3A]

/-- Bytes of `,"text":`. -/
def kText : List Nat := [0x2C, 0x22, 0x74, 0x65, 0x78, 0x74, 0x22, 0x3A]

/-- Bytes of `,"muted":`. -/
def kMuted : List Nat := [0x2C, 0x22, 0x6D, 0x75, 0x74, 0x65, 0x64, 0x22, 0x3A]

/-- Bytes of `,"device_name":`. -/
def kDevice : List Nat :=
  [0x2C, 0x22, 0x64, 0x65, 0x76, 0x69, 0x63, 0x65, 0x5F, 0x6E, 0x61, 0x6D, 0x65, 0x22, 0x3A]

/-- The members of the serialized `OsdMessage` object, in the struct's
declaration order, ending with the closing brace (byte `0x7D`). -/
def serializeFields (m : OsdMessage) : List Nat :=
  kType ++ jStr m.message_type ++
  kValue ++ jOptInt m.value ++
  kMax ++ jOptInt m.max_value ++
  kText ++ jOptStr m.text ++
  kMuted ++ jOptBool m.muted ++
  kDevice ++ jOptStr m.device_name ++ [0x7D]

/-- `serde_json::to_string(&msg)`: the wire JSON of an `OsdMessage`
(byte `0x7B` is the opening brace). -/
def serializeOsd (m : OsdMessage) : List Nat := 0x7B :: serializeFields m

/-- JSON whitespace byte. -/
def isWsB (b : Nat) : Bool := b == 0x20 || b == 0x09 || b == 0x0A || b == 0x0D

/-- Drop leading JSON whitespace. -/
def skipWs (l : List Nat) : List Nat := l.dropWhile isWsB

/-- Value of a hex digit byte (either case), if it is one. -/
def hexVal (b : Nat) : Option Nat :=
  if 0x30 ≤ b ∧ b ≤ 0x39 then some (b - 0x30)
  else if 0x61 ≤ b ∧ b ≤ 0x66 then some (b - 0x57)
  else if 0x41 ≤ b ∧ b ≤ 0x46 then some (b - 0x37)
  else none

/-- UTF-8 encoding of a Unicode scalar value (used when a `\uXXXX`
escape is decoded back into `String` bytes). -/
def utf8Enc (c : Nat) : List Nat :=
  if c < 0x80 then [c]
  else if c < 0x800 then [0xC0 + c / 64, 0x80 + c % 64]
  else if c < 0x10000 then [0xE0 + c / 4096, 0x80 + c / 64 % 64, 0x80 + c % 64]
  else [0xF0 + c / 262144, 0x80 + c / 4096 % 64, 0x80 + c / 64 % 64, 0x80 + c % 64]

/-- Prepend decoded bytes to the contents component of a string-parse
result. -/
def withBytes (xs : List Nat) : Option (List Nat × List Nat) → Option (List Nat × List Nat)
  | none => none
  | some (s, rest) => some (xs ++ s, rest)

/-- Read exactly four hex digit bytes and return their value. -/
def hex4 : List Nat → Option (Nat × List Nat)
  | h1 :: h2 :: h3 :: h4 :: r =>
    match hexVal h1, hexVal h2, hexVal h3, hexVal h4 with
    | some d1, some d2, some d3, some d4 => some (d1 * 4096 + d2 * 256 + d3 * 16 + d4, r)
    | _, _, _, _ => none
  | _ => none

/-- Decode the rest of a `\u` escape (the four hex digits already seen
to follow): a high surrogate must be followed by `\u` and a low
surrogate (combined into one code point), a lone surrogate is an error
(as in `serde_json` when the target is a `String`), anything else is a
scalar value.  Returns the UTF-8 bytes of the decoded code point. -/
def parseUEscape (r : List Nat) : Option (List Nat × List Nat) :=
  match hex4 r with
  | none => none
  | some (cp, r2) =>
    if 0xD800 ≤ cp ∧ cp ≤ 0xDBFF then
      match r2 with
      | e5 :: e6 :: r2a =>
        if e5 = 0x5C ∧ e6 = 0x75 then
          match hex4 r2a with
          | some (lo, r3) =>
            if 0xDC00 ≤ lo ∧ lo ≤ 0xDFFF then
              some (utf8Enc (0x10000 + (cp - 0xD800) * 0x400 + (lo - 0xDC00)), r3)
            else none
          | none => none
        else none
      | _ => none
    else if 0xDC00 ≤ cp ∧ cp ≤ 0xDFFF then none
    else some (utf8Enc cp, r2)

/-- The decoded byte of a short escape (`\" \\ \/ \b \f \n \r \t`). -/
def escShort (e : Nat) : Option (List Nat) :=
  if e = 0x22 then some [0x22]
  else if e = 0x5C then some [0x5C]
  else if e = 0x2F then some [0x2F]
  else if e = 0x62 then some [0x08]
  else if e = 0x66 then some [0x0C]
  else if e = 0x6E then some [0x0A]
  else if e = 0x72 then some [0x0D]
  else if e = 0x74 then some [0x09]
  else none

/-- Parse the body of a JSON string (opening quote already consumed):
returns the decoded contents bytes and the input after the closing
quote.  Mirrors `serde_json`'s string reading: escape short forms,
`\uXXXX` escapes via `parseUEscape`, raw control bytes rejected, all
other bytes taken verbatim.  Fuel-driven: every call site passes at
least `length + 1` and every step consumes at least one byte per unit
of fuel, so the fuel never limits parsing. -/
def parseStringBody : Nat → List Nat → Option (List Nat × List Nat)
  | 0, _ => none
  | _, [] => none
  | f + 1, b :: r =>
    if b = 0x22 then some ([], r)
    else if b = 0x5C then
      match r with
      | [] => none
      | e :: r1 =>
        match escShort e with
        | some bs => withBytes bs (parseStringBody f r1)
        | none =>
          if e = 0x75 then
            match parseUEscape r1 with
            | some (bs, r2) => withBytes bs (parseStringBody f r2)
            | none => none
          else none
    else if b < 0x20 then none
    else withBytes [b] (parseStringBody f r)

/-- ASCII decimal digit byte. -/
def isDigitB (b : Nat) : Bool := decide (0x30 ≤ b) && decide (b ≤ 0x39)

/-- Numeric value of a run of decimal digit bytes. -/
def digitsVal (ds : List Nat) : Nat := ds.foldl (fun a b => a * 10 + (b - 0x30)) 0

/-- Parse an unsigned JSON integer: a nonempty digit run without a
forbidden leading zero.  A following `.`/`e`/`E` (a float literal) is
rejected, modelling `serde_json` deserializing an `i32` field from a
non-integer number. -/
def parseNatNum (input : List Nat) : Option (Nat × List Nat) :=
  let ds := input.takeWhile isDigitB
  let rest := input.dropWhile isDigitB
  if ds = [] then none
  else if ds.head? = some 0x30 ∧ ds.length ≠ 1 then none
  else
    match rest with
    | b :: _ => if b = 0x2E ∨ b = 0x65 ∨ b = 0x45 then none else some (digitsVal ds, rest)
    | [] => some (digitsVal ds, rest)

/-- A scalar JSON value, the only member values that occur in the flat
`OsdMessage` schema. -/
inductive JVal where
  | str (s : List Nat)
  | int (n : Int)
  | boolean (b : Bool)
  | null
deriving DecidableEq

/-- Parse one scalar JSON value. -/
def parseJValue : List Nat → Option (JVal × List Nat)
  | [] => none
  | b :: r =>
    if b = 0x22 then
      match parseStringBody (r.length + 1) r with
      | some (s, rest) => some (.str s, rest)
      | none => none
    else if b = 0x74 then
      match r with
      | e1 :: e2 :: e3 :: rest =>
        if e1 = 0x72 ∧ e2 = 0x75 ∧ e3 = 0x65 then some (.boolean true, rest) else none
      | _ => none
    else if b = 0x66 then
      match r with
      | e1 :: e2 :: e3 :: e4 :: rest =>
        if e1 = 0x61 ∧ e2 = 0x6C ∧ e3 = 0x73 ∧ e4 = 0x65 then some (.boolean false, rest)
        else none
      | _ => none
    else if b = 0x6E then
      match r with
      | e1 :: e2 :: e3 :: rest =>
        if e1 = 0x75 ∧ e2 = 0x6C ∧ e3 = 0x6C then some (.null, rest) else none
      | _ => none
    else if b = 0x2D then
      match parseNatNum r with
      | some (k, rest) => some (.int (-(k : Int)), rest)
      | none => none
    else if isDigitB b then
      match parseNatNum (b :: r) with
      | some (k, rest) => some (.int (k : Int), rest)
      | none => none
    else none

/-- Deserialization slots for the six struct fields: `none` = not seen
yet; `some v` = seen with value `v` (a second occurrence is a duplicate
field, an error in `serde`). -/
structure PartialMsg where
  ptype : Option (List Nat) := none
  pvalue : Option (Option Int) := none
  pmax : Option (Option Int) := none
  ptext : Option (Option (List Nat)) := none
  pmuted : Option (Option Bool) := none
  pdevice : Option (Option (List Nat)) := none
deriving DecidableEq

/-- The `i32` range check `serde` performs when deserializing an `i32`
from a JSON integer. -/
def i32Ok (n : Int) : Bool := decide (-2147483648 ≤ n) && decide (n ≤ 2147483647)

/-- Record one parsed object member into the slots, with `serde`
semantics: duplicates of known fields are errors, type mismatches are
errors, `null` is `None` for the `Option` fields, unknown members are
ignored. -/
def setField (pm : PartialMsg) (key : List Nat) (v : JVal) : Option PartialMsg :=
  if key = ascii "type" then
    match pm.ptype, v with
    | none, .str s => some { pm with ptype := some s }
    | _, _ => none
  else if key = ascii "value" then
    match pm.pvalue, v with
    | none, .int n => if i32Ok n then some { pm with pvalue := some (some n) } else none
    | none, .null => some { pm with pvalue := some none }
    | _, _ => none
  else if key = ascii "max_value" then
    match pm.pmax, v with
    | none, .int n => if i32Ok n then some { pm with pmax := some (some n) } else none
    | none, .null => some { pm with pmax := some none }
    | _, _ => none
  else if key = ascii "text" then
    match pm.ptext, v with
    | none, .str s => some { pm with ptext := some (some s) }
    | none, .null => some { pm with ptext := some none }
    | _, _ => none
  else if key = ascii "muted" then
    match pm.pmuted, v with
    | none, .boolean b => some { pm with pmuted := some (some b) }
    | none, .null => some { pm with pmuted := some none }
    | _, _ => none
  else if key = ascii "device_name" then
    match pm.pdevice, v with
    | none, .str s => some { pm with pdevice := some (some s) }
    | none, .null => some { pm with pdevice := some none }
    | _, _ => none
  else some pm

/-- Parse the members of the object, starting just before a key, until
the closing brace.  Fuel-driven; each iteration consumes at least four
bytes, so the fuel used at the call site (`length + 1`) never limits
parsing. -/
def parseFields : Nat → List Nat → PartialMsg → Option (PartialMsg × List Nat)
  | 0, _, _ => none
  | fuel + 1, input, pm =>
    match skipWs input with
    | q :: r =>
      if q = 0x22 then
        match parseStringBody (r.length + 1) r with
        | some (key, r1) =>
          match skipWs r1 with
          | c :: r2 =>
            if c = 0x3A then
              match parseJValue (skipWs r2) with
              | some (v, r3) =>
                match setField pm key v with
                | some pm1 =>
                  match skipWs r3 with
                  | d :: r4 =>
                    if d = 0x2C then parseFields fuel r4 pm1
                    else if d = 0x7D then some (pm1, r4)
                    else none
                  | [] => none
                | none => none
              | none => none
            else none
          | [] => none
        | none => none
      else none
    | [] => none

/-- Build the struct from the slots: the `String` field `type` is
required (`serde`: "missing field" error), the `Option` fields default
to `None`. -/
def assembleMsg (pm : PartialMsg) : Option OsdMessage :=
  match pm.ptype with
  | some t =>
    some ⟨t, pm.pvalue.getD none, pm.pmax.getD none, pm.ptext.getD none,
          pm.pmuted.getD none, pm.pdevice.getD none⟩
  | none => none

/-- `serde_json::from_str::<OsdMessage>` on the bytes of the (already
UTF-8-checked) message string: a JSON object, arbitrary member order,
only trailing whitespace allowed after it. -/
def fromJsonOsd (input : List Nat) : Option OsdMessage :=
  match skipWs input with
  | o :: r =>
    if o = 0x7B then
      match skipWs r with
      | c :: rest =>
        if c = 0x7D then (if skipWs rest = [] then assembleMsg {} else none)
        else
          match parseFields (r.length + 1) r {} with
          | some (pm, rest1) => if skipWs rest1 = [] then assembleMsg pm else none
          | none => none
      | [] => none
    else none
  | [] => none

/-- Events produced by one pass of the server's read/decode loop.
`oversized` is the "Message too large, discarding" branch at a
delimiter, `wouldExceed` the "Message would exceed size limit,
discarding" branch at the end of a chunk, `invalidUtf8` and `malformed`
the two decode-failure logs, `message` a successfully decoded frame
handed to `handle_message`, and `readError` the non-`WouldBlock` read
error log. -/
inductive PipeEvent where
  | oversized (len : Nat)
  | wouldExceed
  | invalidUtf8
  | malformed (raw : List Nat)
  | message (m : OsdMessage)
  | readError
deriving DecidableEq

/-- What the loop body does with one completed frame:
`String::from_utf8`, then `serde_json::from_str`, then either hand the
message on or log. -/
def classifyFrame (bytes : List Nat) : PipeEvent :=
  if utf8Valid bytes then
    match fromJsonOsd bytes with
    | some m => .message m
    | none => .malformed bytes
  else .invalidUtf8

/-- The delimiter branch of the loop, applied to the assembled pending
bytes (`buffer ++ read_buffer[start..i]`): nothing happens for an empty
assembly (the `!buffer.is_empty() || i > start` guard), an over-limit
assembly is reported and dropped, otherwise the frame is classified.
In every case the pending buffer is left empty. -/
def delimEvents (assembled : List Nat) : List PipeEvent :=
  if assembled = [] then []
  else if assembled.length > MAX_MESSAGE_SIZE then [.oversized assembled.length]
  else [classifyFrame assembled]

/-- The `for (i, &byte) in read_buffer[..n]` scan: `buffer` is the
pending buffer carried between reads, `seg` the bytes of the current
chunk since the last delimiter (`read_buffer[start..i]`).  Returns the
events emitted, the pending buffer after the loop, and the trailing
segment (`read_buffer[start..n]`). -/
def scanBytes (buffer seg : List Nat) : List Nat → List PipeEvent × List Nat × List Nat
  | [] => ([], buffer, seg)
  | x :: rest =>
    if x = 0 then
      let r := scanBytes [] [] rest
      (delimEvents (buffer ++ seg) ++ r.1, r.2)
    else scanBytes buffer (seg ++ [x]) rest

/-- One `Ok(n)` iteration of the read loop on a chunk of `n` bytes: the
scan, then the `if start < n` tail that either discards (when appending
would exceed `MAX_MESSAGE_SIZE`) or appends the trailing bytes to the
pending buffer. -/
def processBytes (buffer chunk : List Nat) : List PipeEvent × List Nat :=
  let r := scanBytes buffer [] chunk
  if r.2.2 = [] then (r.1, r.2.1)
  else if r.2.1.length + r.2.2.length > MAX_MESSAGE_SIZE then (r.1 ++ [.wouldExceed], [])
  else (r.1, r.2.1 ++ r.2.2)

/-- Iterated read loop: the same pending buffer threaded through a
sequence of chunks (one element per successful `read`). -/
def processChunks (b : List Nat) : List (List Nat) → List PipeEvent × List Nat
  | [] => ([], b)
  | c :: cs =>
    let r := processBytes b c
    let r2 := processChunks r.2 cs
    (r.1 ++ r2.1, r2.2)

/-- Concatenation of the chunks of a chunking. -/
def joinAll : List (List Nat) → List Nat
  | [] => []
  | c :: cs => c ++ joinAll cs

/-- Chunk-boundary-free reference semantics: the scan of the whole
stream with the tail check dropped (proof device used to relate
different chunkings of one stream). -/
def canon (u S : List Nat) : List PipeEvent × List Nat :=
  let r := scanBytes u [] S
  (r.1, r.2.1 ++ r.2.2)

/-- Every NUL-free infix of the stream fits in `MAX_MESSAGE_SIZE` (in
particular every delimited frame and every partial trailing frame). -/
def Bounded (s : List Nat) : Prop :=
  ∀ x t y, s = x ++ (t ++ y) → NoZero t → t.length ≤ MAX_MESSAGE_SIZE

/-- The icons the server can display (which embedded SVG is loaded). -/
inductive Icon where
  | volumeLow
  | volumeMedium
  | volumeHigh
  | volumeOveramplified
  | volumeMuted
  | brightness
deriving DecidableEq

/-- `get_volume_icon` from the server. -/
def get_volume_icon (value : Int) (muted : Bool) : Icon :=
  if muted then .volumeMuted
  else if value > 100 then .volumeOveramplified
  else if value > 66 then .volumeHigh
  else if value > 33 then .volumeMedium
  else .volumeLow

/-- The widget state `handle_message` mutates.  `progress_fraction`
records the `(value, max)` pair passed to `set_fraction` (the quotient
is computed in `f64`; the pair determines it).  `overamplified` is the
CSS class toggled on the progress bar; `max_value` the shared value the
marker-line draw function reads. -/
structure UiState where
  window_visible : Bool
  progress_visible : Bool
  progress_fraction : Int × Int
  label_visible : Bool
  label_text : List Nat
  device_label_visible : Bool
  device_label_text : List Nat
  icon_visible : Bool
  icon : Icon
  overamplified : Bool
  drawing_area_visible : Bool
  max_value : Int
deriving DecidableEq

/-- The server state relevant to the display state machine: the widgets,
the stored `timeout_source_id`, the timers currently registered with the
glib main context (id, fire time), and a fresh-id counter standing for
glib's source-id allocation. -/
structure Sys where
  ui : UiState
  stored : Option Nat
  live : List (Nat × Nat)
  nextId : Nat
deriving DecidableEq

/-- Log lines `handle_message` can emit. -/
inductive UiEvent where
  | warnMissingVolumeFields
  | warnMissingBrightnessFields
  | warnMissingText
  | warnUnknownType (t : List Nat)
  | errRemoveSource (id : Nat)
deriving DecidableEq

/-- The `"volume"` branch body when both numeric fields are present. -/
def updateVolume (ui : UiState) (value maxv : Int) (muted : Option Bool)
    (device : Option (List Nat)) : UiState :=
  let ui1 := { ui with progress_fraction := (value, maxv), progress_visible := true,
                       label_visible := false }
  let ui2 :=
    match device with
    | some d => { ui1 with device_label_text := d, device_label_visible := true }
    | none => { ui1 with device_label_visible := false }
  let ui3 := { ui2 with overamplified := decide (value > 100) }
  let ui4 :=
    if maxv > 100 then { ui3 with max_value := maxv, drawing_area_visible := true }
    else { ui3 with drawing_area_visible := false }
  { ui4 with icon := get_volume_icon value (muted.getD false), icon_visible := true }

/-- The `"brightness"` branch body when both numeric fields are present. -/
def updateBrightness (ui : UiState) (value maxv : Int) : UiState :=
  { ui with progress_fraction := (value, maxv), progress_visible := true,
            label_visible := false, device_label_visible := false,
            drawing_area_visible := false, icon := .brightness, icon_visible := true }

/-- The `"text"` branch body when the text field is present. -/
def updateText (ui : UiState) (t : List Nat) : UiState :=
  { ui with label_text := t, label_visible := true, progress_visible := false,
            icon_visible := false, device_label_visible := false,
            drawing_area_visible := false }

/-- The common tail of `handle_message` after the `match`: take and
remove the stored timeout (logging, non-fatally, if glib no longer knows
it), show the window, register a fresh 3-second timeout and store its
id. -/
def armAndShow (s : Sys) (now : Nat) (evs : List UiEvent) : Sys × List UiEvent :=
  let removed : List (Nat × Nat) × List UiEvent :=
    match s.stored with
    | some id =>
      if s.live.any (fun q => q.1 == id) then (s.live.filter (fun q => q.1 != id), evs)
      else (s.live, evs ++ [.errRemoveSource id])
    | none => (s.live, evs)
  (⟨{ s.ui with window_visible := true }, some s.nextId,
    removed.1 ++ [(s.nextId, now + 3)], s.nextId + 1⟩, removed.2)

/-- `handle_message` from the server: the `match` on the `type` string
(an unknown type returns early, all other branches—field validation
failures included—fall through to `armAndShow`). -/
def handle_message (s : Sys) (msg : OsdMessage) (now : Nat) : Sys × List UiEvent :=
  if msg.message_type = ascii "volume" then
    match msg.value, msg.max_value with
    | some v, some mx =>
      armAndShow { s with ui := updateVolume s.ui v mx msg.muted msg.device_name } now []
    | _, _ => armAndShow s now [.warnMissingVolumeFields]
  else if msg.message_type = ascii "brightness" then
    match msg.value, msg.max_value with
    | some v, some mx =>
      armAndShow { s with ui := updateBrightness s.ui v mx } now []
    | _, _ => armAndShow s now [.warnMissingBrightnessFields]
  else if msg.message_type = ascii "text" then
    match msg.text with
    | some t => armAndShow { s with ui := updateText s.ui t } now []
    | none => armAndShow s now [.warnMissingText]
  else (s, [.warnUnknownType msg.message_type])

/-- A registered timeout fires: hide the window, clear the stored id,
and drop the source from the main context (the closure returns
`ControlFlow::Break`).  A source that is no longer registered cannot
fire. -/
def fireTimer (s : Sys) (id t : Nat) : Sys :=
  if (id, t) ∈ s.live then
    ⟨{ s.ui with window_visible := false }, none, s.live.filter (fun q => q.1 != id), s.nextId⟩
  else s

/-- Widget state after `create_ui`: everything hidden, shared
`max_value` initialised to 100, the icon widget created from the medium
volume SVG, progress fraction at its initial 0. -/
def initialUi : UiState :=
  { window_visible := false, progress_visible := false, progress_fraction := (0, 0),
    label_visible := false, label_text := [], device_label_visible := false,
    device_label_text := [], icon_visible := false, icon := .volumeMedium,
    overamplified := false, drawing_area_visible := false, max_value := 100 }

/-- Server state at startup: no stored timeout, no registered timers. -/
def initialSys : Sys := ⟨initialUi, none, [], 0⟩

/-- The message kinds `handle_message` recognizes. -/
def recognizedType (m : OsdMessage) : Prop :=
  m.message_type = ascii "volume" ∨ m.message_type = ascii "brightness" ∨
    m.message_type = ascii "text"

/-- The stored `timeout_source_id` and the registered timers agree: a
stored id is the single registered timer, no stored id means no
registered timer.  This is the "at most one pending timer" invariant. -/
def TimerInv (s : Sys) : Prop :=
  match s.stored with
  | some id => ∃ t, s.live = [(id, t)]
  | none => s.live = []

/-- Apply the decoded frames of one read in order: each `message` event
is a `handle_message` call, every other event is only a log line. -/
def applyFrames (s : Sys) (now : Nat) : List PipeEvent → Sys × List UiEvent
  | [] => (s, [])
  | .message m :: rest =>
    let r := handle_message s m now
    let r2 := applyFrames r.1 now rest
    (r2.1, r.2 ++ r2.2)
  | _ :: rest => applyFrames s now rest

/-- Outcome of the non-blocking `read` at the top of the idle callback:
`ok []` is `Ok(0)` (end of stream), `ok bytes` a successful read, and
`err true`/`err false` the `WouldBlock`/other error cases. -/
inductive ReadResult where
  | ok (bytes : List Nat)
  | err (wouldBlock : Bool)
deriving DecidableEq

/-- The value the idle closure returns to glib. -/
inductive GControl where
  | Continue
  | Break
deriving DecidableEq

/-- Consumer-side state threaded through idle callbacks: the pending
frame buffer and the display state machine. -/
structure ConsumerState where
  buffer : List Nat
  sys : Sys
deriving DecidableEq

/-- One execution of the `idle_add_local` closure, for a given read
outcome: EOF is traced and ignored (the same descriptor stays polled;
no reopen exists in the closure), data is decoded and applied,
`WouldBlock` is silent, any other read error is logged.  The closure
always returns `Continue`. -/
def pollStep (st : ConsumerState) (r : ReadResult) (now : Nat) :
    ConsumerState × List PipeEvent × List UiEvent × GControl :=
  match r with
  | .ok [] => (st, [], [], .Continue)
  | .ok bytes =>
    let d := processBytes st.buffer bytes
    let a := applyFrames st.sys now d.1
    (⟨d.2, a.1⟩, d.1, a.2, .Continue)
  | .err true => (st, [], [], .Continue)
  | .err false => (st, [.readError], [], .Continue)

/-- Trace of one producer-side `send`: the write calls performed, the
number of open attempts, the sleeps between attempts (ms), and whether
delivery succeeded. -/
structure SendTrace where
  writes : List (List Nat)
  attempts : Nat
  waits_ms : List Nat
  delivered : Bool
deriving DecidableEq

/-- Modelled from the spec (§4.3 Message Encoder): the pipe-writing
producer path is not under `src/` (the client there uses the D-Bus
alternate ingress), so the open-retry loop is taken from the spec's
words: up to 5 open attempts, 50 ms apart; `openOk i` tells whether the
i-th attempt finds a reader. -/
def sendFrom (openOk : Nat → Bool) (payload : List Nat) : Nat → Nat → SendTrace
  | 0, i => ⟨[], i, List.replicate (i - 1) 50, false⟩
  | r + 1, i =>
    if openOk i then ⟨[payload], i + 1, List.replicate i 50, true⟩
    else sendFrom openOk payload r (i + 1)

/-- Modelled from the spec (§4.3 Message Encoder): serialize the
message, append the single NUL delimiter, and attempt delivery with the
bounded retry; on success the full delimited payload goes out in one
write call. -/
def send_message (openOk : Nat → Bool) (m : OsdMessage) : SendTrace :=
  sendFrom openOk (serializeOsd m ++ [0]) 5 0

/-- Bytes of the JSON the client sends for `audio --mute`
(`serde_json::Value::to_string`; `serde_json::Map` is a `BTreeMap`, so
members are serialized in key order: `text` before `type`). -/
def audioMuteBytes : List Nat :=
  [0x7B] ++ [0x22, 0x74, 0x65, 0x78, 0x74, 0x22, 0x3A] ++ jStr (ascii "Audio Muted") ++
  [0x2C, 0x22, 0x74, 0x79, 0x70, 0x65, 0x22, 0x3A] ++ jStr (ascii "text") ++ [0x7D]

/-- Bytes of the JSON the client sends for `audio` without `--mute`
(sorted keys: `max_value`, `type`, `value`). -/
def audioVolumeBytes (volume max_volume : Int) : List Nat :=
  [0x7B, 0x22, 0x6D, 0x61, 0x78, 0x5F, 0x76, 0x61, 0x6C, 0x75, 0x65, 0x22, 0x3A] ++
  intBytes max_volume ++
  [0x2C, 0x22, 0x74, 0x79, 0x70, 0x65, 0x22, 0x3A] ++ jStr (ascii "volume") ++
  [0x2C, 0x22, 0x76, 0x61, 0x6C, 0x75, 0x65, 0x22, 0x3A] ++ intBytes volume ++ [0x7D]

/-- The message built by the client's `Commands::Audio` branch. -/
def clientAudioMessage (volume max_volume : Int) (mute : Bool) : List Nat :=
  if mute then audioMuteBytes else audioVolumeBytes volume max_volume

/-- A valid wire message: its strings are (as Rust `String`s are) valid
UTF-8, its numeric fields are in `i32` range, and its encoding fits in
one frame. -/
def ValidMessage (m : OsdMessage) : Prop :=
  utf8Valid m.message_type = true ∧
  (∀ s, m.text = some s → utf8Valid s = true) ∧
  (∀ s, m.device_name = some s → utf8Valid s = true) ∧
  (∀ n, m.value = some n → i32Ok n = true) ∧
  (∀ n, m.max_value = some n → i32Ok n = true) ∧
  (serializeOsd m).length ≤ MAX_MESSAGE_SIZE

instance (m : OsdMessage) : Decidable (ValidMessage m) := by
  unfold ValidMessage
  have : ∀ (p : Option (List Nat)), Decidable (∀ s, p = some s → utf8Valid s = true) := by
    intro p; cases p <;> simp <;> infer_instance
  have : ∀ (p : Option Int), Decidable (∀ n, p = some n → i32Ok n = true) := by
    intro p; cases p <;> simp <;> infer_instance
  infer_instance

/-- The JSON scalar an `Option<i32>` field serializes to. -/
def jvalInt : Option Int → JVal
  | none => .null
  | some n => .int n

/-- The JSON scalar an `Option<String>` field serializes to. -/
def jvalStr : Option (List Nat) → JVal
  | none => .null
  | some s => .str s

/-- The JSON scalar an `Option<bool>` field serializes to. -/
def jvalBool : Option Bool → JVal
  | none => .null
  | some b => .boolean b

/-- The deserialization slots as filled by parsing the serialized form
of a message: every field seen exactly once. -/
def pmOf (m : OsdMessage) : PartialMsg :=
  ⟨some m.message_type, some m.value, some m.max_value, some m.text, some m.muted,
   some m.device_name⟩

/-- At least one oversize report among the decoder events: either the
mid-chunk "would exceed size limit" discard or the "too large" report at
a delimiter. -/
def OversizeIn (evs : List PipeEvent) : Prop :=
  PipeEvent.wouldExceed ∈ evs ∨ ∃ n, PipeEvent.oversized n ∈ evs

theorem noZero_nil : NoZero [] := by intro x hx; cases hx

theorem noZero_append {a b : List Nat} (ha : NoZero a) (hb : NoZero b) : NoZero (a ++ b) := by
  intro x hx
  rcases List.mem_append.1 hx with h | h
  · exact ha x h
  · exact hb x h

theorem noZero_cons {x : Nat} {l : List Nat} (hx : x ≠ 0) (hl : NoZero l) : NoZero (x :: l) := by
  intro z hz
  rcases List.mem_cons.1 hz with rfl | h
  · exact hx
  · exact hl z h

theorem scanBytes_nil (b s : List Nat) : scanBytes b s [] = ([], b, s) := rfl

theorem scanBytes_zero (b s rest : List Nat) :
    scanBytes b s (0 :: rest) =
      (delimEvents (b ++ s) ++ (scanBytes [] [] rest).1, (scanBytes [] [] rest).2) := by
  simp [scanBytes]

theorem scanBytes_pos (b s : List Nat) {x : Nat} (hx : x ≠ 0) (rest : List Nat) :
    scanBytes b s (x :: rest) = scanBytes b (s ++ [x]) rest := by
  simp [scanBytes, hx]

theorem scanBytes_skip : ∀ (A : List Nat), NoZero A → ∀ (b s B : List Nat),
    scanBytes b s (A ++ B) = scanBytes b (s ++ A) B
  | [], _, b, s, B => by simp
  | x :: A1, h, b, s, B => by
    have hx : x ≠ 0 := h x (by simp)
    have hA1 : NoZero A1 := fun z hz => h z (by simp [hz])
    rw [List.cons_append, scanBytes_pos b s hx, scanBytes_skip A1 hA1 b (s ++ [x]) B]
    simp

theorem scanBytes_merge : ∀ (d b1 s1 b2 s2 : List Nat), b1 ++ s1 = b2 ++ s2 →
    (scanBytes b1 s1 d).1 = (scanBytes b2 s2 d).1 ∧
    (scanBytes b1 s1 d).2.1 ++ (scanBytes b1 s1 d).2.2 =
      (scanBytes b2 s2 d).2.1 ++ (scanBytes b2 s2 d).2.2
  | [], b1, s1, b2, s2, h => by simp [scanBytes_nil, h]
  | x :: d1, b1, s1, b2, s2, h => by
    by_cases hx : x = 0
    · subst hx
      rw [scanBytes_zero, scanBytes_zero, h]
      exact ⟨rfl, rfl⟩
    · rw [scanBytes_pos _ _ hx, scanBytes_pos _ _ hx]
      exact scanBytes_merge d1 b1 (s1 ++ [x]) b2 (s2 ++ [x])
        (by rw [← List.append_assoc, ← List.append_assoc, h])

theorem canon_nozero (u S : List Nat) (h : NoZero S) : canon u S = ([], u ++ S) := by
  unfold canon
  have h1 : scanBytes u [] S = scanBytes u S [] := by
    have := scanBytes_skip S h u [] []
    simpa using this
  rw [h1, scanBytes_nil]

theorem canon_split (u c1 c2 : List Nat) (h : NoZero c1) :
    canon u (c1 ++ 0 :: c2) =
      (delimEvents (u ++ c1) ++ (canon [] c2).1, (canon [] c2).2) := by
  unfold canon
  have h1 := scanBytes_skip c1 h u [] (0 :: c2)
  simp only [List.nil_append] at h1
  rw [h1, scanBytes_zero]

theorem canon_shift (u A B : List Nat) (h : NoZero A) : canon u (A ++ B) = canon (u ++ A) B := by
  unfold canon
  have h1 := scanBytes_skip A h u [] B
  simp only [List.nil_append] at h1
  rw [h1]
  have h2 := scanBytes_merge B u A (u ++ A) [] (by simp)
  exact Prod.ext h2.1 h2.2

theorem first_zero_split : ∀ (c : List Nat), NoZero c ∨ ∃ c1 c2, c = c1 ++ 0 :: c2 ∧ NoZero c1
  | [] => Or.inl noZero_nil
  | x :: c1 => by
    by_cases hx : x = 0
    · exact Or.inr ⟨[], c1, by simp [hx], noZero_nil⟩
    · rcases first_zero_split c1 with h | ⟨d1, d2, hd, h1⟩
      · exact Or.inl (noZero_cons hx h)
      · exact Or.inr ⟨x :: d1, d2, by simp [hd], noZero_cons hx h1⟩

theorem canon_append (A u B : List Nat) : canon u (A ++ B) =
    ((canon u A).1 ++ (canon (canon u A).2 B).1, (canon (canon u A).2 B).2) := by
  rcases first_zero_split A with h | ⟨c1, c2, hA, h1⟩
  · rw [canon_shift u A B h, canon_nozero u A h]
    simp
  · have hrec := canon_append c2 [] B
    rw [hA, List.append_assoc, List.cons_append,
      canon_split u c1 (c2 ++ B) h1, canon_split u c1 c2 h1, hrec]
    simp
termination_by A.length
decreasing_by simp [hA]; omega

theorem canon_pending (S u : List Nat) (hu : NoZero u) :
    NoZero (canon u S).2 ∧ ∃ w, u ++ S = w ++ (canon u S).2 := by
  rcases first_zero_split S with h | ⟨c1, c2, hS, h1⟩
  · rw [canon_nozero u S h]
    exact ⟨noZero_append hu h, ⟨[], by simp⟩⟩
  · have hrec := canon_pending c2 [] noZero_nil
    rw [hS, canon_split u c1 c2 h1]
    rcases hrec with ⟨hz, w, hw⟩
    simp only [List.nil_append] at hw
    refine ⟨hz, ⟨u ++ c1 ++ 0 :: w, ?_⟩⟩
    conv_lhs => rw [hw]
    simp
termination_by S.length
decreasing_by simp [hS]; omega

theorem processBytes_eq_canon (b c : List Nat)
    (h : (canon b c).2.length ≤ MAX_MESSAGE_SIZE) : processBytes b c = canon b c := by
  unfold processBytes canon at *
  by_cases hs : (scanBytes b [] c).2.2 = []
  · simp [hs]
  · have h2 : ¬ ((scanBytes b [] c).2.1.length + (scanBytes b [] c).2.2.length
        > MAX_MESSAGE_SIZE) := by
      rw [List.length_append] at h; omega
    simp [hs, h2]

theorem bounded_extend {v J p : List Nat} (hB : Bounded (v ++ J)) (hw : ∃ w, v = w ++ p) :
    Bounded (p ++ J) := by
  rcases hw with ⟨w, rfl⟩
  intro x t y ht hz
  apply hB (w ++ x) t y ?_ hz
  rw [List.append_assoc, List.append_assoc, ← ht, ← List.append_assoc]

theorem processChunks_eq : ∀ (cs : List (List Nat)) (b : List Nat), NoZero b →
    Bounded (b ++ joinAll cs) → processChunks b cs = processBytes b (joinAll cs)
  | [], b, _, _ => by simp [processChunks, joinAll, processBytes, scanBytes_nil]
  | c :: cs, b, hb, hB => by
    obtain ⟨hpz, w, hw⟩ := canon_pending c b hb
    have hJ : joinAll (c :: cs) = c ++ joinAll cs := rfl
    have hple : (canon b c).2.length ≤ MAX_MESSAGE_SIZE := by
      apply hB w (canon b c).2 (joinAll cs) ?_ hpz
      rw [hJ, ← List.append_assoc, hw, List.append_assoc]
    have hBytes : processBytes b c = canon b c := processBytes_eq_canon b c hple
    have hBp : Bounded ((canon b c).2 ++ joinAll cs) := by
      rw [hJ] at hB
      apply bounded_extend (v := b ++ c) ?_ ⟨w, hw⟩
      rw [List.append_assoc]
      exact hB
    have hIH := processChunks_eq cs (canon b c).2 hpz hBp
    have hc2 : (canon (canon b c).2 (joinAll cs)).2.length ≤ MAX_MESSAGE_SIZE := by
      obtain ⟨hz2, w2, hw2⟩ := canon_pending (joinAll cs) (canon b c).2 hpz
      apply hBp w2 _ [] ?_ hz2
      rw [hw2]; simp
    have hPJ : processBytes (canon b c).2 (joinAll cs) = canon (canon b c).2 (joinAll cs) :=
      processBytes_eq_canon _ _ hc2
    have hRHS : processBytes b (joinAll (c :: cs)) = canon b (c ++ joinAll cs) := by
      rw [hJ]
      apply processBytes_eq_canon
      rw [canon_append]
      exact hc2
    rw [hRHS, canon_append]
    show ((processBytes b c).1 ++ (processChunks (processBytes b c).2 cs).1,
      (processChunks (processBytes b c).2 cs).2) = _
    rw [hBytes, hIH, hPJ]

theorem bounded_nil : Bounded [] := by
  intro x t y h hz
  rcases List.append_eq_nil.1 h.symm with ⟨hx, hty⟩
  rcases List.append_eq_nil.1 hty with ⟨ht, hy⟩
  simp [ht, MAX_MESSAGE_SIZE]

theorem bounded_cons {w s : List Nat} (hz : NoZero w) (hlen : w.length ≤ MAX_MESSAGE_SIZE)
    (hs : Bounded s) : Bounded (w ++ 0 :: s) := by
  intro x t y heq hzt
  by_cases h1 : x.length + t.length ≤ w.length
  · omega
  · by_cases h2 : w.length < x.length
    · have hL : (w ++ 0 :: s).drop (w.length + 1) = s := by
        rw [show w ++ 0 :: s = (w ++ [0]) ++ s by simp,
          show w.length + 1 = (w ++ [0]).length by simp, List.drop_left]
      have hR : (x ++ (t ++ y)).drop (w.length + 1) = x.drop (w.length + 1) ++ (t ++ y) :=
        List.drop_append_of_le_length (by omega)
      exact hs _ t y (by rw [← hL, heq, hR]) hzt
    · exfalso
      push_neg at h1 h2
      have hdrop := congrArg (List.drop x.length) heq
      rw [List.drop_append_of_le_length h2, List.drop_left] at hdrop
      have hwd : (w.drop x.length).length < t.length := by
        rw [List.length_drop]; omega
      rcases List.append_eq_append_iff.1 hdrop.symm with ⟨a1, ha, _⟩ | ⟨c1, hc, hcs⟩
      · have := congrArg List.length ha
        simp at this; omega
      · match c1, hcs with
        | [], hcs => have := congrArg List.length hc; simp at this; omega
        | z :: c2, hcs =>
          have hz0 : z = 0 := (List.cons_eq_cons.1 (List.cons_append z c2 y ▸ hcs)).1.symm
          exact hzt 0 (by rw [hc, hz0]; simp) rfl

theorem canon_nil (u : List Nat) : canon u [] = ([], u) := by
  have := canon_nozero u [] noZero_nil
  simpa using this

theorem delimEvents_frame {w : List Nat} (hne : w ≠ []) (hlen : w.length ≤ MAX_MESSAGE_SIZE) :
    delimEvents w = [classifyFrame w] := by
  have h2 : ¬ (w.length > MAX_MESSAGE_SIZE) := by omega
  simp [delimEvents, hne, h2]

theorem canon_frame (w rest : List Nat) (hz : NoZero w) :
    canon [] (w ++ 0 :: rest) = (delimEvents w ++ (canon [] rest).1, (canon [] rest).2) := by
  have := canon_split [] w rest hz
  simpa using this

theorem processBytes_one_frame {w : List Nat} (hz : NoZero w) (hne : w ≠ [])
    (hlen : w.length ≤ MAX_MESSAGE_SIZE) :
    processBytes [] (w ++ [0]) = ([classifyFrame w], []) := by
  have hc : canon [] (w ++ 0 :: ([] : List Nat)) = ([classifyFrame w], []) := by
    rw [canon_frame w [] hz, canon_nil, delimEvents_frame hne hlen]
    simp
  have := processBytes_eq_canon [] (w ++ [0]) (by rw [show w ++ [0] = w ++ 0 :: ([] : List Nat) from rfl, hc]; simp [MAX_MESSAGE_SIZE])
  rw [this, show w ++ [0] = w ++ 0 :: ([] : List Nat) from rfl, hc]

theorem hexDigit_range {d : Nat} (h : d < 16) : 0x30 ≤ hexDigit d ∧ hexDigit d ≤ 0x66 := by
  unfold hexDigit; split <;> omega

theorem escByte_mem {b x : Nat} (hx : x ∈ escByte b) :
    (0x22 ≤ x ∧ x ≤ 0x75) ∨ (x = b ∧ 0x20 ≤ b) := by
  unfold escByte at hx
  split_ifs at hx with h1 h2 h3 h4 h5 h6 h7 h8
  · simp at hx; rcases hx with h | h <;> omega
  · simp at hx; rcases hx with h | h <;> omega
  · simp at hx; rcases hx with h | h <;> omega
  · simp at hx; rcases hx with h | h <;> omega
  · simp at hx; rcases hx with h | h <;> omega
  · simp at hx; rcases hx with h | h <;> omega
  · simp at hx; rcases hx with h | h <;> omega
  · simp at hx
    have hd1 := hexDigit_range (d := b / 16) (by omega)
    have hd2 := hexDigit_range (d := b % 16) (by omega)
    rcases hx with h | h | h | h | h | h <;> omega
  · simp at hx; omega

theorem escByte_low {b : Nat} (h : b < 0x80) : ∀ x ∈ escByte b, x < 0x80 := by
  intro x hx
  rcases escByte_mem hx with h1 | h1 <;> omega

theorem escByte_high {b : Nat} (h : 0x80 ≤ b) : escByte b = [b] := by
  unfold escByte
  split_ifs <;> first | rfl | omega

theorem noZero_escByte (b : Nat) : NoZero (escByte b) := by
  intro x hx
  rcases escByte_mem hx with h1 | h1 <;> omega

theorem noZero_escape (s : List Nat) : NoZero (escape s) := by
  induction s with
  | nil => exact noZero_nil
  | cons b r ih => exact noZero_append (noZero_escByte b) ih

theorem natDigitsAux_digits : ∀ (f n : Nat), ∀ x ∈ natDigitsAux f n, 0x30 ≤ x ∧ x ≤ 0x39
  | 0, n => by intro x hx; cases hx
  | f + 1, n => by
    intro x hx
    unfold natDigitsAux at hx
    split_ifs at hx with h1
    · simp at hx; omega
    · rcases List.mem_append.1 hx with h | h
      · exact natDigitsAux_digits f (n / 10) x h
      · simp at h; omega

theorem natDigits_digits (n : Nat) : ∀ x ∈ natDigits n, 0x30 ≤ x ∧ x ≤ 0x39 :=
  natDigitsAux_digits (n + 1) n

theorem noZero_intBytes (n : Int) : NoZero (intBytes n) := by
  unfold intBytes
  split_ifs with h
  · exact noZero_cons (by omega) (fun x hx => by have := natDigits_digits n.natAbs x hx; omega)
  · exact fun x hx => by have := natDigits_digits n.toNat x hx; omega

theorem noZero_jStr (s : List Nat) : NoZero (jStr s) := by
  unfold jStr
  exact noZero_cons (by omega) (noZero_append (noZero_escape s) (by decide))

theorem noZero_jOptStr (o : Option (List Nat)) : NoZero (jOptStr o) := by
  cases o with
  | none => decide
  | some s => exact noZero_jStr s

theorem noZero_jOptInt (o : Option Int) : NoZero (jOptInt o) := by
  cases o with
  | none => decide
  | some n => exact noZero_intBytes n

theorem noZero_jOptBool (o : Option Bool) : NoZero (jOptBool o) := by
  rcases o with _ | b
  · decide
  · cases b <;> decide

theorem noZero_serializeOsd (m : OsdMessage) : NoZero (serializeOsd m) := by
  unfold serializeOsd serializeFields
  simp only [List.append_assoc]
  refine noZero_cons (by omega) ?_
  refine noZero_append (by decide) (noZero_append (noZero_jStr _) ?_)
  refine noZero_append (by decide) (noZero_append (noZero_jOptInt _) ?_)
  refine noZero_append (by decide) (noZero_append (noZero_jOptInt _) ?_)
  refine noZero_append (by decide) (noZero_append (noZero_jOptStr _) ?_)
  refine noZero_append (by decide) (noZero_append (noZero_jOptBool _) ?_)
  exact noZero_append (by decide) (noZero_append (noZero_jOptStr _) (by decide))



theorem utf8Valid_low_cons {b : Nat} (h : b < 0x80) (r : List Nat) :
    utf8Valid (b :: r) = utf8Valid r := by
  match r with
  | [] => simp [utf8Valid, h]
  | [c1] => simp only [utf8Valid]; rw [if_pos h]
  | [c1, c2] => simp only [utf8Valid]; rw [if_pos h]
  | c1 :: c2 :: c3 :: r1 => simp only [utf8Valid]; rw [if_pos h]

theorem utf8Valid_badlead {b : Nat} (h1 : 0x80 ≤ b) (h2 : b < 0xC2) (r : List Nat) :
    utf8Valid (b :: r) = false := by
  match r with
  | [] => simp only [utf8Valid]; simp; omega
  | [c1] => simp only [utf8Valid]; rw [if_neg (by omega), if_pos h2]
  | [c1, c2] => simp only [utf8Valid]; rw [if_neg (by omega), if_pos h2]
  | c1 :: c2 :: c3 :: r1 => simp only [utf8Valid]; rw [if_neg (by omega), if_pos h2]

theorem utf8Valid_hugelead {b : Nat} (h : 0xF5 ≤ b) (r : List Nat) :
    utf8Valid (b :: r) = false := by
  match r with
  | [] => simp only [utf8Valid]; simp; omega
  | [c1] =>
    simp only [utf8Valid]
    rw [if_neg (by omega), if_neg (by omega), if_neg (by omega)]
  | [c1, c2] =>
    simp only [utf8Valid]
    rw [if_neg (by omega), if_neg (by omega), if_neg (by omega), if_neg (by omega)]
  | c1 :: c2 :: c3 :: r1 =>
    simp only [utf8Valid]
    rw [if_neg (by omega), if_neg (by omega), if_neg (by omega), if_neg (by omega),
      if_neg (by omega)]

theorem utf8Valid_cons2 {b : Nat} (h1 : 0xC2 ≤ b) (h2 : b < 0xE0) (c1 : Nat) (r : List Nat) :
    utf8Valid (b :: c1 :: r) = (contB c1 && utf8Valid r) := by
  match r with
  | [] =>
    simp only [utf8Valid]
    rw [if_neg (by omega), if_neg (by omega), if_pos h2]
    simp [utf8Valid]
  | [c2] =>
    simp only [utf8Valid]
    rw [if_neg (by omega), if_neg (by omega), if_pos h2]
  | c2 :: c3 :: r1 =>
    simp only [utf8Valid]
    rw [if_neg (by omega), if_neg (by omega), if_pos h2]

theorem utf8Valid_cons3 {b : Nat} (h1 : 0xE0 ≤ b) (h2 : b < 0xF0) (c1 c2 : Nat)
    (r : List Nat) :
    utf8Valid (b :: c1 :: c2 :: r) = (lead3 b c1 && contB c2 && utf8Valid r) := by
  match r with
  | [] =>
    simp only [utf8Valid]
    rw [if_neg (by omega), if_neg (by omega), if_neg (by omega), if_pos h2]
    simp [utf8Valid]
  | c3 :: r1 =>
    simp only [utf8Valid]
    rw [if_neg (by omega), if_neg (by omega), if_neg (by omega), if_pos h2]

theorem utf8Valid_cons4 {b : Nat} (h1 : 0xF0 ≤ b) (h2 : b < 0xF5) (c1 c2 c3 : Nat)
    (r : List Nat) : utf8Valid (b :: c1 :: c2 :: c3 :: r) =
      (lead4 b c1 && contB c2 && contB c3 && utf8Valid r) := by
  simp only [utf8Valid]
  rw [if_neg (by omega), if_neg (by omega), if_neg (by omega), if_neg (by omega), if_pos h2]

theorem utf8Valid_two_high {b c1 : Nat} (h1 : 0xE0 ≤ b) : utf8Valid [b, c1] = false := by
  simp only [utf8Valid]
  rw [if_neg (by omega), if_neg (by omega), if_neg (by omega)]

theorem utf8Valid_three_high {b c1 c2 : Nat} (h1 : 0xF0 ≤ b) :
    utf8Valid [b, c1, c2] = false := by
  simp only [utf8Valid]
  rw [if_neg (by omega), if_neg (by omega), if_neg (by omega), if_neg (by omega)]

theorem utf8Valid_one_high {b : Nat} (h1 : 0x80 ≤ b) : utf8Valid [b] = false := by
  simp only [utf8Valid]; simp; omega

theorem utf8Valid_append : ∀ (s : List Nat), utf8Valid s = true → ∀ (r : List Nat),
    utf8Valid (s ++ r) = utf8Valid r
  | [], _, r => rfl
  | b :: s1, h, r => by
    by_cases h1 : b < 0x80
    · have hs1 : utf8Valid s1 = true := by rwa [utf8Valid_low_cons h1] at h
      rw [List.cons_append, utf8Valid_low_cons h1, utf8Valid_append s1 hs1 r]
    · by_cases h2 : b < 0xC2
      · rw [utf8Valid_badlead (by omega) h2] at h; exact absurd h (by simp)
      · by_cases h3 : b < 0xE0
        · match s1 with
          | [] =>
            rw [show utf8Valid [b] = false from utf8Valid_one_high (by omega)] at h
            exact absurd h (by simp)
          | c1 :: r1 =>
            rw [utf8Valid_cons2 (by omega) h3] at h
            rw [Bool.and_eq_true] at h
            rw [List.cons_append, List.cons_append, utf8Valid_cons2 (by omega) h3,
              h.1, Bool.true_and, utf8Valid_append r1 h.2 r]
        · by_cases h4 : b < 0xF0
          · match s1 with
            | [] =>
              rw [show utf8Valid [b] = false from utf8Valid_one_high (by omega)] at h
              exact absurd h (by simp)
            | [c1] =>
              rw [show utf8Valid [b, c1] = false from utf8Valid_two_high (by omega)] at h
              exact absurd h (by simp)
            | c1 :: c2 :: r2 =>
              rw [utf8Valid_cons3 (by omega) h4] at h
              rw [Bool.and_eq_true, Bool.and_eq_true] at h
              rw [List.cons_append, List.cons_append, List.cons_append,
                utf8Valid_cons3 (by omega) h4, h.1.1, h.1.2, Bool.true_and, Bool.true_and,
                utf8Valid_append r2 h.2 r]
          · by_cases h5 : b < 0xF5
            · match s1 with
              | [] =>
                rw [show utf8Valid [b] = false from utf8Valid_one_high (by omega)] at h
                exact absurd h (by simp)
              | [c1] =>
                rw [show utf8Valid [b, c1] = false from utf8Valid_two_high (by omega)] at h
                exact absurd h (by simp)
              | [c1, c2] =>
                rw [show utf8Valid [b, c1, c2] = false from utf8Valid_three_high (by omega)] at h
                exact absurd h (by simp)
              | c1 :: c2 :: c3 :: r3 =>
                rw [utf8Valid_cons4 (by omega) h5] at h
                rw [Bool.and_eq_true, Bool.and_eq_true, Bool.and_eq_true] at h
                rw [List.cons_append, List.cons_append, List.cons_append, List.cons_append,
                  utf8Valid_cons4 (by omega) h5, h.1.1.1, h.1.1.2, h.1.2,
                  Bool.true_and, Bool.true_and, Bool.true_and, utf8Valid_append r3 h.2 r]
            · rw [utf8Valid_hugelead (by omega) s1] at h; exact absurd h (by simp)

theorem utf8Valid_app₂ {a b : List Nat} (ha : utf8Valid a = true) (hb : utf8Valid b = true) :
    utf8Valid (a ++ b) = true := by
  rw [utf8Valid_append a ha b]; exact hb

theorem utf8_low_append {a : List Nat} (h : ∀ x ∈ a, x < 0x80) (r : List Nat) :
    utf8Valid (a ++ r) = utf8Valid r := by
  induction a with
  | nil => rfl
  | cons b a1 ih =>
    have hb : b < 0x80 := h b (by simp)
    rw [List.cons_append, utf8Valid_low_cons hb, ih (fun x hx => h x (by simp [hx]))]

theorem utf8_low {a : List Nat} (h : ∀ x ∈ a, x < 0x80) : utf8Valid a = true := by
  have := utf8_low_append h []
  simpa using this

theorem contB_high {c : Nat} (h : contB c = true) : 0x80 ≤ c := by
  unfold contB at h; simp at h; omega

theorem lead3_high {b c : Nat} (h : lead3 b c = true) : 0x80 ≤ c := by
  unfold lead3 contB at h
  split_ifs at h <;> simp at h <;> omega

theorem lead4_high {b c : Nat} (h : lead4 b c = true) : 0x80 ≤ c := by
  unfold lead4 contB at h
  split_ifs at h <;> simp at h <;> omega

theorem escape_cons (b : Nat) (r : List Nat) : escape (b :: r) = escByte b ++ escape r := rfl

theorem utf8Valid_escape : ∀ (s : List Nat), utf8Valid s = true → utf8Valid (escape s) = true
  | [], _ => rfl
  | b :: s1, h => by
    by_cases h1 : b < 0x80
    · have hs1 : utf8Valid s1 = true := by rwa [utf8Valid_low_cons h1] at h
      rw [escape_cons, utf8_low_append (escByte_low h1), utf8Valid_escape s1 hs1]
    · by_cases h2 : b < 0xC2
      · rw [utf8Valid_badlead (by omega) h2] at h; exact absurd h (by simp)
      · by_cases h3 : b < 0xE0
        · match s1 with
          | [] =>
            rw [show utf8Valid [b] = false from utf8Valid_one_high (by omega)] at h
            exact absurd h (by simp)
          | c1 :: r1 =>
            rw [utf8Valid_cons2 (by omega) h3, Bool.and_eq_true] at h
            rw [escape_cons, escape_cons, escByte_high (by omega),
              escByte_high (contB_high h.1)]
            simp only [List.cons_append, List.singleton_append, List.nil_append]
            rw [utf8Valid_cons2 (by omega) h3, h.1, Bool.true_and, utf8Valid_escape r1 h.2]
        · by_cases h4 : b < 0xF0
          · match s1 with
            | [] =>
              rw [show utf8Valid [b] = false from utf8Valid_one_high (by omega)] at h
              exact absurd h (by simp)
            | [c1] =>
              rw [show utf8Valid [b, c1] = false from utf8Valid_two_high (by omega)] at h
              exact absurd h (by simp)
            | c1 :: c2 :: r2 =>
              rw [utf8Valid_cons3 (by omega) h4, Bool.and_eq_true, Bool.and_eq_true] at h
              rw [escape_cons, escape_cons, escape_cons, escByte_high (by omega),
                escByte_high (lead3_high h.1.1), escByte_high (contB_high h.1.2)]
              simp only [List.cons_append, List.singleton_append, List.nil_append]
              rw [utf8Valid_cons3 (by omega) h4, h.1.1, h.1.2, Bool.true_and, Bool.true_and,
                utf8Valid_escape r2 h.2]
          · by_cases h5 : b < 0xF5
            · match s1 with
              | [] =>
                rw [show utf8Valid [b] = false from utf8Valid_one_high (by omega)] at h
                exact absurd h (by simp)
              | [c1] =>
                rw [show utf8Valid [b, c1] = false from utf8Valid_two_high (by omega)] at h
                exact absurd h (by simp)
              | [c1, c2] =>
                rw [show utf8Valid [b, c1, c2] = false from utf8Valid_three_high (by omega)] at h
                exact absurd h (by simp)
              | c1 :: c2 :: c3 :: r3 =>
                rw [utf8Valid_cons4 (by omega) h5, Bool.and_eq_true, Bool.and_eq_true,
                  Bool.and_eq_true] at h
                rw [escape_cons, escape_cons, escape_cons, escape_cons,
                  escByte_high (by omega), escByte_high (lead4_high h.1.1.1),
                  escByte_high (contB_high h.1.1.2), escByte_high (contB_high h.1.2)]
                simp only [List.cons_append, List.singleton_append, List.nil_append]
                rw [utf8Valid_cons4 (by omega) h5,
                  h.1.1.1, h.1.1.2, h.1.2, Bool.true_and, Bool.true_and, Bool.true_and,
                  utf8Valid_escape r3 h.2]
            · rw [utf8Valid_hugelead (by omega) s1] at h; exact absurd h (by simp)

theorem utf8Valid_jStr {s : List Nat} (hs : utf8Valid s = true) : utf8Valid (jStr s) = true := by
  unfold jStr
  rw [utf8Valid_low_cons (by omega), utf8Valid_append (escape s) (utf8Valid_escape s hs) [0x22]]
  decide

theorem utf8Valid_intBytes (n : Int) : utf8Valid (intBytes n) = true := by
  apply utf8_low
  intro x hx
  unfold intBytes at hx
  split_ifs at hx with h
  · rcases List.mem_cons.1 hx with rfl | hx2
    · omega
    · have := natDigits_digits n.natAbs x hx2; omega
  · have := natDigits_digits n.toNat x hx; omega

theorem utf8Valid_jOptStr : ∀ (o : Option (List Nat)),
    (∀ s, o = some s → utf8Valid s = true) → utf8Valid (jOptStr o) = true
  | none, _ => by decide
  | some s, h => utf8Valid_jStr (h s rfl)

theorem utf8Valid_jOptInt (o : Option Int) : utf8Valid (jOptInt o) = true := by
  cases o with
  | none => decide
  | some n => exact utf8Valid_intBytes n

theorem utf8Valid_jOptBool (o : Option Bool) : utf8Valid (jOptBool o) = true := by
  rcases o with _ | b
  · decide
  · cases b <;> decide

theorem utf8Valid_serializeOsd (m : OsdMessage) (ht : utf8Valid m.message_type = true)
    (htx : ∀ s, m.text = some s → utf8Valid s = true)
    (hd : ∀ s, m.device_name = some s → utf8Valid s = true) :
    utf8Valid (serializeOsd m) = true := by
  unfold serializeOsd serializeFields
  simp only [List.append_assoc]
  rw [utf8Valid_low_cons (by omega)]
  refine utf8Valid_app₂ (by decide) (utf8Valid_app₂ (utf8Valid_jStr ht) ?_)
  refine utf8Valid_app₂ (by decide) (utf8Valid_app₂ (utf8Valid_jOptInt _) ?_)
  refine utf8Valid_app₂ (by decide) (utf8Valid_app₂ (utf8Valid_jOptInt _) ?_)
  refine utf8Valid_app₂ (by decide) (utf8Valid_app₂ (utf8Valid_jOptStr _ htx) ?_)
  refine utf8Valid_app₂ (by decide) (utf8Valid_app₂ (utf8Valid_jOptBool _) ?_)
  exact utf8Valid_app₂ (by decide) (utf8Valid_app₂ (utf8Valid_jOptStr _ hd) (by decide))

theorem skipWs_cons {b : Nat} (h : isWsB b = false) (r : List Nat) : skipWs (b :: r) = b :: r := by
  simp [skipWs, List.dropWhile_cons, h]

theorem withBytes_some (xs s rest : List Nat) :
    withBytes xs (some (s, rest)) = some (xs ++ s, rest) := rfl

theorem psb_copy {b : Nat} (f : Nat) (h1 : ¬ b < 0x20) (h2 : b ≠ 0x22) (h3 : b ≠ 0x5C)
    (r : List Nat) : parseStringBody (f + 1) (b :: r) = withBytes [b] (parseStringBody f r) := by
  simp only [parseStringBody]
  rw [if_neg h2, if_neg h3, if_neg h1]

theorem hexVal_hexDigit {d : Nat} (h : d < 16) : hexVal (hexDigit d) = some d := by
  unfold hexVal hexDigit
  split_ifs <;> first | (simp only [Option.some.injEq]; omega) | omega

theorem parseUEscape_low {b : Nat} (hb : b < 0x20) (rest : List Nat) :
    parseUEscape (0x30 :: 0x30 :: hexDigit (b / 16) :: hexDigit (b % 16) :: rest) =
      some ([b], rest) := by
  have h1 : hexVal 0x30 = some 0 := by decide
  have h2 := hexVal_hexDigit (d := b / 16) (by omega)
  have h3 := hexVal_hexDigit (d := b % 16) (by omega)
  simp only [parseUEscape, hex4, h1, h2, h3]
  have hcp : 0 * 4096 + 0 * 256 + (b / 16) * 16 + b % 16 = b := by omega
  rw [hcp, if_neg (by omega), if_neg (by omega)]
  unfold utf8Enc
  rw [if_pos (by omega)]

theorem parseStringBody_plain : ∀ (key : List Nat),
    (∀ b ∈ key, 0x20 ≤ b ∧ b ≠ 0x22 ∧ b ≠ 0x5C) →
    ∀ (f : Nat) (rest : List Nat), key.length < f →
    parseStringBody f (key ++ 0x22 :: rest) = some (key, rest)
  | [], _, f, rest, hf => by
    obtain ⟨f1, rfl⟩ : ∃ f1, f = f1 + 1 := ⟨f - 1, by omega⟩
    rfl
  | b :: k1, h, f, rest, hf => by
    obtain ⟨f1, rfl⟩ : ∃ f1, f = f1 + 1 := ⟨f - 1, by omega⟩
    have hb := h b (by simp)
    have hk1 : ∀ x ∈ k1, 0x20 ≤ x ∧ x ≠ 0x22 ∧ x ≠ 0x5C := fun x hx => h x (by simp [hx])
    rw [List.cons_append, psb_copy f1 (by omega) hb.2.1 hb.2.2,
      parseStringBody_plain k1 hk1 f1 rest (by simp at hf; omega)]
    rfl

theorem escByte_len_pos (b : Nat) : 1 ≤ (escByte b).length := by
  unfold escByte
  split_ifs <;> simp

theorem parseStringBody_escape : ∀ (s : List Nat) (f : Nat) (rest : List Nat),
    (escape s).length < f →
    parseStringBody f (escape s ++ 0x22 :: rest) = some (s, rest)
  | [], f, rest, hf => by
    obtain ⟨f1, rfl⟩ : ∃ f1, f = f1 + 1 := ⟨f - 1, by omega⟩
    rfl
  | b :: s1, f, rest, hf => by
    have hlen : (escape (b :: s1)).length = (escByte b).length + (escape s1).length := by
      rw [escape_cons, List.length_append]
    have hlb := escByte_len_pos b
    obtain ⟨f1, rfl⟩ : ∃ f1, f = f1 + 1 := ⟨f - 1, by omega⟩
    have ih := parseStringBody_escape s1 f1 rest (by omega)
    rw [escape_cons, List.append_assoc]
    unfold escByte
    split_ifs with e1 e2 e3 e4 e5 e6 e7 e8
    · subst e1
      rw [show parseStringBody (f1 + 1) ([0x5C, 0x22] ++ (escape s1 ++ 0x22 :: rest)) =
        withBytes [0x22] (parseStringBody f1 (escape s1 ++ 0x22 :: rest)) from rfl, ih]
      rfl
    · subst e2
      rw [show parseStringBody (f1 + 1) ([0x5C, 0x5C] ++ (escape s1 ++ 0x22 :: rest)) =
        withBytes [0x5C] (parseStringBody f1 (escape s1 ++ 0x22 :: rest)) from rfl, ih]
      rfl
    · subst e3
      rw [show parseStringBody (f1 + 1) ([0x5C, 0x62] ++ (escape s1 ++ 0x22 :: rest)) =
        withBytes [0x08] (parseStringBody f1 (escape s1 ++ 0x22 :: rest)) from rfl, ih]
      rfl
    · subst e4
      rw [show parseStringBody (f1 + 1) ([0x5C, 0x74] ++ (escape s1 ++ 0x22 :: rest)) =
        withBytes [0x09] (parseStringBody f1 (escape s1 ++ 0x22 :: rest)) from rfl, ih]
      rfl
    · subst e5
      rw [show parseStringBody (f1 + 1) ([0x5C, 0x6E] ++ (escape s1 ++ 0x22 :: rest)) =
        withBytes [0x0A] (parseStringBody f1 (escape s1 ++ 0x22 :: rest)) from rfl, ih]
      rfl
    · subst e6
      rw [show parseStringBody (f1 + 1) ([0x5C, 0x66] ++ (escape s1 ++ 0x22 :: rest)) =
        withBytes [0x0C] (parseStringBody f1 (escape s1 ++ 0x22 :: rest)) from rfl, ih]
      rfl
    · subst e7
      rw [show parseStringBody (f1 + 1) ([0x5C, 0x72] ++ (escape s1 ++ 0x22 :: rest)) =
        withBytes [0x0D] (parseStringBody f1 (escape s1 ++ 0x22 :: rest)) from rfl, ih]
      rfl
    · rw [show ([0x5C, 0x75, 0x30, 0x30, hexDigit (b / 16), hexDigit (b % 16)] ++
          (escape s1 ++ 0x22 :: rest)) =
        0x5C :: 0x75 :: (0x30 :: 0x30 :: hexDigit (b / 16) :: hexDigit (b % 16) ::
          (escape s1 ++ 0x22 :: rest)) from rfl]
      rw [show parseStringBody (f1 + 1) (0x5C :: 0x75 :: (0x30 :: 0x30 :: hexDigit (b / 16) ::
          hexDigit (b % 16) :: (escape s1 ++ 0x22 :: rest))) =
        (match parseUEscape (0x30 :: 0x30 :: hexDigit (b / 16) :: hexDigit (b % 16) ::
            (escape s1 ++ 0x22 :: rest)) with
         | some (bs, r2) => withBytes bs (parseStringBody f1 r2)
         | none => none) from rfl]
      rw [parseUEscape_low e8]
      dsimp only
      rw [ih]
      rfl
    · rw [show ([b] ++ (escape s1 ++ 0x22 :: rest)) = b :: (escape s1 ++ 0x22 :: rest) from rfl,
        psb_copy f1 e8 e1 e2, ih]
      rfl

theorem takeWhile_all_append {p : Nat → Bool} : ∀ {a : List Nat}, (∀ x ∈ a, p x = true) →
    ∀ (r : List Nat), (a ++ r).takeWhile p = a ++ r.takeWhile p
  | [], _, r => by simp
  | b :: a1, h, r => by
    rw [List.cons_append, List.takeWhile_cons_of_pos (h b (by simp)),
      takeWhile_all_append (fun x hx => h x (by simp [hx])) r, List.cons_append]

theorem dropWhile_all_append {p : Nat → Bool} : ∀ {a : List Nat}, (∀ x ∈ a, p x = true) →
    ∀ (r : List Nat), (a ++ r).dropWhile p = r.dropWhile p
  | [], _, r => by simp
  | b :: a1, h, r => by
    rw [List.cons_append, List.dropWhile_cons_of_pos (h b (by simp)),
      dropWhile_all_append (fun x hx => h x (by simp [hx])) r]

theorem digitsVal_append_one (ds : List Nat) (d : Nat) :
    digitsVal (ds ++ [d]) = digitsVal ds * 10 + (d - 0x30) := by
  unfold digitsVal
  rw [List.foldl_append]
  rfl

theorem natDigitsAux_spec : ∀ (f n : Nat), n < f →
    natDigitsAux f n ≠ [] ∧ digitsVal (natDigitsAux f n) = n
  | 0, n, h => absurd h (by omega)
  | f + 1, n, h => by
    unfold natDigitsAux
    split_ifs with h1
    · refine ⟨by simp, ?_⟩
      show 0 * 10 + (0x30 + n - 0x30) = n
      omega
    · have hrec := natDigitsAux_spec f (n / 10) (by omega)
      refine ⟨by simp, ?_⟩
      rw [digitsVal_append_one, hrec.2]
      omega

theorem natDigits_ne_nil (n : Nat) : natDigits n ≠ [] :=
  (natDigitsAux_spec (n + 1) n (by omega)).1

theorem digitsVal_natDigits (n : Nat) : digitsVal (natDigits n) = n :=
  (natDigitsAux_spec (n + 1) n (by omega)).2

theorem head?_append_left {xs ys : List Nat} (h : xs ≠ []) : (xs ++ ys).head? = xs.head? := by
  cases xs with
  | nil => exact absurd rfl h
  | cons a l => rfl

theorem natDigitsAux_head : ∀ (f n : Nat), n < f → 1 ≤ n →
    (natDigitsAux f n).head? ≠ some 0x30
  | 0, n, h, _ => absurd h (by omega)
  | f + 1, n, h, h1 => by
    unfold natDigitsAux
    split_ifs with h2
    · simp only [List.head?_cons, ne_eq, Option.some.injEq]
      omega
    · rw [head?_append_left (natDigitsAux_spec f (n / 10) (by omega)).1]
      exact natDigitsAux_head f (n / 10) (by omega) (by omega)

theorem natDigits_no_leadzero (n : Nat) :
    ¬((natDigits n).head? = some 0x30 ∧ (natDigits n).length ≠ 1) := by
  by_cases h : n < 10
  · unfold natDigits natDigitsAux
    rw [if_pos h]
    simp
  · rintro ⟨hh, _⟩
    exact natDigitsAux_head (n + 1) n (by omega) (by omega) hh

/-- The byte after a serialized integer stops number parsing without
turning it into a float: not a digit and not `.`/`e`/`E`. -/
def NumStop (rest : List Nat) : Prop :=
  ∀ b, rest.head? = some b → isDigitB b = false ∧ b ≠ 0x2E ∧ b ≠ 0x65 ∧ b ≠ 0x45

theorem numStop_cons {d : Nat} (h1 : isDigitB d = false) (h2 : d ≠ 0x2E) (h3 : d ≠ 0x65)
    (h4 : d ≠ 0x45) (r : List Nat) : NumStop (d :: r) := by
  intro b hb
  rw [List.head?_cons, Option.some.injEq] at hb
  subst hb
  exact ⟨h1, h2, h3, h4⟩

theorem parseNatNum_digits {k : Nat} {rest : List Nat} (hstop : NumStop rest) :
    parseNatNum (natDigits k ++ rest) = some (k, rest) := by
  unfold parseNatNum
  have hdig : ∀ x ∈ natDigits k, isDigitB x = true := fun x hx => by
    have := natDigits_digits k x hx
    unfold isDigitB
    simp
    omega
  have htw : rest.takeWhile isDigitB = [] := by
    cases rest with
    | nil => rfl
    | cons b r => rw [List.takeWhile_cons_of_neg (by simp [(hstop b rfl).1])]
  have hdw : rest.dropWhile isDigitB = rest := by
    cases rest with
    | nil => rfl
    | cons b r => rw [List.dropWhile_cons_of_neg (by simp [(hstop b rfl).1])]
  rw [takeWhile_all_append hdig, dropWhile_all_append hdig, htw, hdw, List.append_nil]
  rw [if_neg (natDigits_ne_nil k), if_neg (natDigits_no_leadzero k)]
  cases rest with
  | nil => rw [digitsVal_natDigits]
  | cons b r =>
    have hb := hstop b rfl
    dsimp only
    rw [if_neg (by simp [hb.2.1, hb.2.2.1, hb.2.2.2]), digitsVal_natDigits]

theorem parseJValue_jStr (s rest : List Nat) :
    parseJValue (jStr s ++ rest) = some (.str s, rest) := by
  unfold jStr
  rw [List.cons_append]
  simp only [parseJValue, if_true]
  rw [List.append_assoc]
  simp only [List.singleton_append]
  rw [parseStringBody_escape s _ rest (by simp [List.length_append]; omega)]

theorem parseJValue_null (rest : List Nat) :
    parseJValue (ascii "null" ++ rest) = some (.null, rest) := rfl

theorem parseJValue_true (rest : List Nat) :
    parseJValue (ascii "true" ++ rest) = some (.boolean true, rest) := rfl

theorem parseJValue_false (rest : List Nat) :
    parseJValue (ascii "false" ++ rest) = some (.boolean false, rest) := rfl

theorem natDigits_shape (k : Nat) : ∃ hd tl, natDigits k = hd :: tl ∧ 0x30 ≤ hd ∧ hd ≤ 0x39 := by
  cases h : natDigits k with
  | nil => exact absurd h (natDigits_ne_nil k)
  | cons hd tl =>
    have := natDigits_digits k hd (by rw [h]; simp)
    exact ⟨hd, tl, rfl, this.1, this.2⟩

theorem parseJValue_intBytes (n : Int) {rest : List Nat} (hstop : NumStop rest) :
    parseJValue (intBytes n ++ rest) = some (.int n, rest) := by
  unfold intBytes
  split_ifs with hneg
  · rw [List.cons_append,
      show parseJValue (0x2D :: (natDigits n.natAbs ++ rest)) =
        (match parseNatNum (natDigits n.natAbs ++ rest) with
         | some (k, r2) => some (JVal.int (-(k : Int)), r2)
         | none => none) from rfl,
      parseNatNum_digits hstop]
    dsimp only
    have : -((n.natAbs : Nat) : Int) = n := by omega
    rw [this]
  · obtain ⟨hd, tl, hds, hd1, hd2⟩ := natDigits_shape n.toNat
    rw [hds, List.cons_append]
    simp only [parseJValue]
    rw [if_neg (by omega), if_neg (by omega), if_neg (by omega), if_neg (by omega),
      if_neg (by omega), if_pos (by unfold isDigitB; simp; omega),
      ← List.cons_append, ← hds, parseNatNum_digits hstop]
    dsimp only
    have : ((n.toNat : Nat) : Int) = n := by omega
    rw [this]

theorem parseJValue_jOptInt (o : Option Int) {rest : List Nat} (hstop : NumStop rest) :
    parseJValue (jOptInt o ++ rest) = some (jvalInt o, rest) := by
  cases o with
  | none => exact parseJValue_null rest
  | some n => exact parseJValue_intBytes n hstop

theorem parseJValue_jOptStr (o : Option (List Nat)) (rest : List Nat) :
    parseJValue (jOptStr o ++ rest) = some (jvalStr o, rest) := by
  cases o with
  | none => exact parseJValue_null rest
  | some s => exact parseJValue_jStr s rest

theorem parseJValue_jOptBool (o : Option Bool) (rest : List Nat) :
    parseJValue (jOptBool o ++ rest) = some (jvalBool o, rest) := by
  rcases o with _ | b
  · exact parseJValue_null rest
  · cases b
    · exact parseJValue_false rest
    · exact parseJValue_true rest

theorem skipWs_self {l : List Nat} (h : ∀ b, l.head? = some b → isWsB b = false) :
    skipWs l = l := by
  cases l with
  | nil => rfl
  | cons b r => exact skipWs_cons (h b rfl) r

theorem isWsB_digit {b : Nat} (h1 : 0x21 ≤ b) : isWsB b = false := by
  unfold isWsB
  simp
  omega

theorem skipWs_jOptInt (o : Option Int) (X : List Nat) :
    skipWs (jOptInt o ++ X) = jOptInt o ++ X := by
  apply skipWs_self
  intro b hb
  cases o with
  | none =>
    rw [show jOptInt none ++ X = 0x6E :: ([0x75, 0x6C, 0x6C] ++ X) from rfl] at hb
    simp at hb
    subst hb
    decide
  | some n =>
    rw [show jOptInt (some n) = intBytes n from rfl] at hb
    unfold intBytes at hb
    split_ifs at hb with hneg
    · rw [List.cons_append] at hb
      simp at hb
      subst hb
      decide
    · obtain ⟨hd, tl, hds, hd1, hd2⟩ := natDigits_shape n.toNat
      rw [hds, List.cons_append] at hb
      simp at hb
      subst hb
      exact isWsB_digit (by omega)

theorem skipWs_jStr (s X : List Nat) : skipWs (jStr s ++ X) = jStr s ++ X := by
  unfold jStr
  rw [List.cons_append, skipWs_cons (by decide)]

theorem skipWs_jOptStr (o : Option (List Nat)) (X : List Nat) :
    skipWs (jOptStr o ++ X) = jOptStr o ++ X := by
  cases o with
  | none =>
    rw [show jOptStr none ++ X = 0x6E :: ([0x75, 0x6C, 0x6C] ++ X) from rfl,
      skipWs_cons (by decide)]
  | some s => exact skipWs_jStr s X

theorem skipWs_jOptBool (o : Option Bool) (X : List Nat) :
    skipWs (jOptBool o ++ X) = jOptBool o ++ X := by
  rcases o with _ | b
  · rw [show jOptBool none ++ X = 0x6E :: ([0x75, 0x6C, 0x6C] ++ X) from rfl,
      skipWs_cons (by decide)]
  · cases b
    · rw [show jOptBool (some false) ++ X = 0x66 :: ([0x61, 0x6C, 0x73, 0x65] ++ X) from rfl,
        skipWs_cons (by decide)]
    · rw [show jOptBool (some true) ++ X = 0x74 :: ([0x72, 0x75, 0x65] ++ X) from rfl,
        skipWs_cons (by decide)]

theorem parseFields_enter (f : Nat) (key vb rest1 : List Nat) (pm pm1 : PartialMsg) (v : JVal)
    (d : Nat)
    (hkey : ∀ b ∈ key, 0x20 ≤ b ∧ b ≠ 0x22 ∧ b ≠ 0x5C)
    (hv : parseJValue (vb ++ d :: rest1) = some (v, d :: rest1))
    (hvws : skipWs (vb ++ d :: rest1) = vb ++ d :: rest1)
    (hset : setField pm key v = some pm1)
    (hd : isWsB d = false) :
    parseFields (f + 1) (0x22 :: (key ++ 0x22 :: 0x3A :: (vb ++ d :: rest1))) pm =
      (if d = 0x2C then parseFields f rest1 pm1
       else if d = 0x7D then some (pm1, rest1) else none) := by
  simp only [parseFields]
  rw [skipWs_cons (by decide)]
  dsimp only
  rw [if_pos rfl,
    parseStringBody_plain key hkey _ (0x3A :: (vb ++ d :: rest1))
      (by simp [List.length_append]; omega)]
  dsimp only
  rw [skipWs_cons (by decide)]
  dsimp only
  rw [if_pos rfl, hvws, hv]
  dsimp only
  rw [hset]
  dsimp only
  rw [skipWs_cons hd]

theorem setField_type (pm : PartialMsg) (h : pm.ptype = none) (s : List Nat) :
    setField pm (ascii "type") (.str s) = some { pm with ptype := some s } := by
  unfold setField
  rw [if_pos rfl, h]

theorem setField_value (pm : PartialMsg) (h : pm.pvalue = none) (o : Option Int)
    (ho : ∀ n, o = some n → i32Ok n = true) :
    setField pm (ascii "value") (jvalInt o) = some { pm with pvalue := some o } := by
  unfold setField
  rw [if_neg (by decide), if_pos rfl]
  cases o with
  | none => rw [h]; rfl
  | some n =>
    rw [show jvalInt (some n) = .int n from rfl, h]
    dsimp only
    rw [if_pos (ho n rfl)]

theorem setField_max (pm : PartialMsg) (h : pm.pmax = none) (o : Option Int)
    (ho : ∀ n, o = some n → i32Ok n = true) :
    setField pm (ascii "max_value") (jvalInt o) = some { pm with pmax := some o } := by
  unfold setField
  rw [if_neg (by decide), if_neg (by decide), if_pos rfl]
  cases o with
  | none => rw [h]; rfl
  | some n =>
    rw [show jvalInt (some n) = .int n from rfl, h]
    dsimp only
    rw [if_pos (ho n rfl)]

theorem setField_text (pm : PartialMsg) (h : pm.ptext = none) (o : Option (List Nat)) :
    setField pm (ascii "text") (jvalStr o) = some { pm with ptext := some o } := by
  unfold setField
  rw [if_neg (by decide), if_neg (by decide), if_neg (by decide), if_pos rfl]
  cases o with
  | none => rw [h]; rfl
  | some s => rw [show jvalStr (some s) = .str s from rfl, h]

theorem setField_muted (pm : PartialMsg) (h : pm.pmuted = none) (o : Option Bool) :
    setField pm (ascii "muted") (jvalBool o) = some { pm with pmuted := some o } := by
  unfold setField
  rw [if_neg (by decide), if_neg (by decide), if_neg (by decide), if_neg (by decide), if_pos rfl]
  cases o with
  | none => rw [h]; rfl
  | some b => rw [show jvalBool (some b) = .boolean b from rfl, h]

theorem setField_device (pm : PartialMsg) (h : pm.pdevice = none) (o : Option (List Nat)) :
    setField pm (ascii "device_name") (jvalStr o) = some { pm with pdevice := some o } := by
  unfold setField
  rw [if_neg (by decide), if_neg (by decide), if_neg (by decide), if_neg (by decide),
    if_neg (by decide), if_pos rfl]
  cases o with
  | none => rw [h]; rfl
  | some s => rw [show jvalStr (some s) = .str s from rfl, h]

theorem numStop_comma (r : List Nat) : NumStop (0x2C :: r) :=
  numStop_cons (by decide) (by decide) (by decide) (by decide) r

theorem numStop_brace (r : List Nat) : NumStop (0x7D :: r) :=
  numStop_cons (by decide) (by decide) (by decide) (by decide) r

theorem parseFields_serializeFields (m : OsdMessage)
    (hv : ∀ n, m.value = some n → i32Ok n = true)
    (hmx : ∀ n, m.max_value = some n → i32Ok n = true) (f0 : Nat) :
    parseFields (f0 + 6) (serializeFields m) {} = some (pmOf m, []) := by
  have step6 : parseFields (f0 + 1)
      (0x22 :: (ascii "device_name" ++ 0x22 :: 0x3A :: (jOptStr m.device_name ++
        0x7D :: ([] : List Nat))))
      ⟨some m.message_type, some m.value, some m.max_value, some m.text, some m.muted, none⟩ =
      some (pmOf m, []) := by
    rw [parseFields_enter f0 (ascii "device_name") (jOptStr m.device_name) []
      ⟨some m.message_type, some m.value, some m.max_value, some m.text, some m.muted, none⟩
      (pmOf m) (jvalStr m.device_name) 0x7D (by decide)
      (parseJValue_jOptStr _ _) (skipWs_jOptStr _ _)
      (by exact setField_device _ rfl _) (by decide)]
    rw [if_neg (by decide), if_pos rfl]
  have step5 : parseFields (f0 + 2)
      (0x22 :: (ascii "muted" ++ 0x22 :: 0x3A :: (jOptBool m.muted ++ 0x2C ::
       (0x22 :: (ascii "device_name" ++ 0x22 :: 0x3A :: (jOptStr m.device_name ++
        0x7D :: ([] : List Nat)))))))
      ⟨some m.message_type, some m.value, some m.max_value, some m.text, none, none⟩ =
      some (pmOf m, []) := by
    rw [show f0 + 2 = (f0 + 1) + 1 from rfl]
    rw [parseFields_enter (f0 + 1) (ascii "muted") (jOptBool m.muted) _
      ⟨some m.message_type, some m.value, some m.max_value, some m.text, none, none⟩
      ⟨some m.message_type, some m.value, some m.max_value, some m.text, some m.muted, none⟩
      (jvalBool m.muted) 0x2C (by decide)
      (parseJValue_jOptBool _ _) (skipWs_jOptBool _ _)
      (by exact setField_muted _ rfl _) (by decide)]
    rw [if_pos rfl]
    exact step6
  have step4 : parseFields (f0 + 3)
      (0x22 :: (ascii "text" ++ 0x22 :: 0x3A :: (jOptStr m.text ++ 0x2C ::
       (0x22 :: (ascii "muted" ++ 0x22 :: 0x3A :: (jOptBool m.muted ++ 0x2C ::
       (0x22 :: (ascii "device_name" ++ 0x22 :: 0x3A :: (jOptStr m.device_name ++
        0x7D :: ([] : List Nat))))))))))
      ⟨some m.message_type, some m.value, some m.max_value, none, none, none⟩ =
      some (pmOf m, []) := by
    rw [show f0 + 3 = (f0 + 2) + 1 from rfl]
    rw [parseFields_enter (f0 + 2) (ascii "text") (jOptStr m.text) _
      ⟨some m.message_type, some m.value, some m.max_value, none, none, none⟩
      ⟨some m.message_type, some m.value, some m.max_value, some m.text, none, none⟩
      (jvalStr m.text) 0x2C (by decide)
      (parseJValue_jOptStr _ _) (skipWs_jOptStr _ _)
      (by exact setField_text _ rfl _) (by decide)]
    rw [if_pos rfl]
    exact step5
  have step3 : parseFields (f0 + 4)
      (0x22 :: (ascii "max_value" ++ 0x22 :: 0x3A :: (jOptInt m.max_value ++ 0x2C ::
       (0x22 :: (ascii "text" ++ 0x22 :: 0x3A :: (jOptStr m.text ++ 0x2C ::
       (0x22 :: (ascii "muted" ++ 0x22 :: 0x3A :: (jOptBool m.muted ++ 0x2C ::
       (0x22 :: (ascii "device_name" ++ 0x22 :: 0x3A :: (jOptStr m.device_name ++
        0x7D :: ([] : List Nat)))))))))))))
      ⟨some m.message_type, some m.value, none, none, none, none⟩ =
      some (pmOf m, []) := by
    rw [show f0 + 4 = (f0 + 3) + 1 from rfl]
    rw [parseFields_enter (f0 + 3) (ascii "max_value") (jOptInt m.max_value) _
      ⟨some m.message_type, some m.value, none, none, none, none⟩
      ⟨some m.message_type, some m.value, some m.max_value, none, none, none⟩
      (jvalInt m.max_value) 0x2C (by decide)
      (parseJValue_jOptInt _ (numStop_comma _)) (skipWs_jOptInt _ _)
      (by exact setField_max _ rfl _ hmx) (by decide)]
    rw [if_pos rfl]
    exact step4
  have step2 : parseFields (f0 + 5)
      (0x22 :: (ascii "value" ++ 0x22 :: 0x3A :: (jOptInt m.value ++ 0x2C ::
       (0x22 :: (ascii "max_value" ++ 0x22 :: 0x3A :: (jOptInt m.max_value ++ 0x2C ::
       (0x22 :: (ascii "text" ++ 0x22 :: 0x3A :: (jOptStr m.text ++ 0x2C ::
       (0x22 :: (ascii "muted" ++ 0x22 :: 0x3A :: (jOptBool m.muted ++ 0x2C ::
       (0x22 :: (ascii "device_name" ++ 0x22 :: 0x3A :: (jOptStr m.device_name ++
        0x7D :: ([] : List Nat))))))))))))))))
      ⟨some m.message_type, none, none, none, none, none⟩ =
      some (pmOf m, []) := by
    rw [show f0 + 5 = (f0 + 4) + 1 from rfl]
    rw [parseFields_enter (f0 + 4) (ascii "value") (jOptInt m.value) _
      ⟨some m.message_type, none, none, none, none, none⟩
      ⟨some m.message_type, some m.value, none, none, none, none⟩
      (jvalInt m.value) 0x2C (by decide)
      (parseJValue_jOptInt _ (numStop_comma _)) (skipWs_jOptInt _ _)
      (by exact setField_value _ rfl _ hv) (by decide)]
    rw [if_pos rfl]
    exact step3
  have hshape : serializeFields m =
      0x22 :: (ascii "type" ++ 0x22 :: 0x3A :: (jStr m.message_type ++ 0x2C ::
      (0x22 :: (ascii "value" ++ 0x22 :: 0x3A :: (jOptInt m.value ++ 0x2C ::
      (0x22 :: (ascii "max_value" ++ 0x22 :: 0x3A :: (jOptInt m.max_value ++ 0x2C ::
      (0x22 :: (ascii "text" ++ 0x22 :: 0x3A :: (jOptStr m.text ++ 0x2C ::
      (0x22 :: (ascii "muted" ++ 0x22 :: 0x3A :: (jOptBool m.muted ++ 0x2C ::
      (0x22 :: (ascii "device_name" ++ 0x22 :: 0x3A :: (jOptStr m.device_name ++
        0x7D :: ([] : List Nat)))))))))))))))))) := by
    simp [serializeFields, kType, kValue, kMax, kText, kMuted, kDevice, ascii]
  rw [hshape, show f0 + 6 = (f0 + 5) + 1 from rfl]
  rw [parseFields_enter (f0 + 5) (ascii "type") (jStr m.message_type) _
    {} ⟨some m.message_type, none, none, none, none, none⟩
    (.str m.message_type) 0x2C (by decide)
    (parseJValue_jStr _ _) (skipWs_jStr _ _)
    (by exact setField_type _ rfl _) (by decide)]
  rw [if_pos rfl]
  exact step2

theorem fromJsonOsd_serializeOsd (m : OsdMessage)
    (hv : ∀ n, m.value = some n → i32Ok n = true)
    (hmx : ∀ n, m.max_value = some n → i32Ok n = true) :
    fromJsonOsd (serializeOsd m) = some m := by
  obtain ⟨X, hX⟩ : ∃ X, serializeFields m = 0x22 :: X := ⟨_, rfl⟩
  have h7 : 7 ≤ (serializeFields m).length := by
    simp [serializeFields, kType, List.length_append]
  obtain ⟨f0, hf0⟩ : ∃ f0, (serializeFields m).length + 1 = f0 + 6 :=
    ⟨(serializeFields m).length - 5, by omega⟩
  unfold serializeOsd
  simp only [fromJsonOsd]
  rw [skipWs_cons (by decide)]
  dsimp only
  rw [if_pos rfl]
  conv_lhs => rw [hX]
  rw [skipWs_cons (by decide)]
  dsimp only
  rw [if_neg (by decide), ← hX, hf0, parseFields_serializeFields m hv hmx f0]
  dsimp only
  rw [if_pos (show skipWs [] = [] from rfl)]
  rfl

theorem classifyFrame_serializeOsd (m : OsdMessage) (hM : ValidMessage m) :
    classifyFrame (serializeOsd m) = .message m := by
  obtain ⟨ht, htx, hd, hv, hmx, _⟩ := hM
  unfold classifyFrame
  rw [if_pos (utf8Valid_serializeOsd m ht htx hd), fromJsonOsd_serializeOsd m hv hmx]

theorem processChunks_cons (b c : List Nat) (cs : List (List Nat)) :
    processChunks b (c :: cs) =
      ((processBytes b c).1 ++ (processChunks (processBytes b c).2 cs).1,
       (processChunks (processBytes b c).2 cs).2) := rfl

theorem processChunks_nil (b : List Nat) : processChunks b [] = ([], b) := rfl

theorem processChunks_step (b c : List Nat) (cs : List (List Nat)) (ev : List PipeEvent)
    (b2 : List Nat) (h : processBytes b c = (ev, b2)) :
    processChunks b (c :: cs) =
      (ev ++ (processChunks b2 cs).1, (processChunks b2 cs).2) := by
  rw [processChunks_cons, h]

theorem processBytes_nozero (b c : List Nat) (hz : NoZero c) :
    processBytes b c =
      (if c = [] then (([] : List PipeEvent), b)
       else if b.length + c.length > MAX_MESSAGE_SIZE then ([.wouldExceed], [])
       else ([], b ++ c)) := by
  unfold processBytes
  have hs : scanBytes b [] c = scanBytes b c [] := by
    have := scanBytes_skip c hz b [] []
    simpa using this
  rw [hs, scanBytes_nil]
  by_cases hc : c = []
  · simp [hc]
  · by_cases hlen : b.length + c.length > MAX_MESSAGE_SIZE
    · simp [hc, hlen]
    · simp [hc, hlen]

theorem processBytes_delim_split (b pre c2 : List Nat) (hz : NoZero pre) :
    processBytes b (pre ++ 0 :: c2) =
      (delimEvents (b ++ pre) ++ (processBytes [] c2).1, (processBytes [] c2).2) := by
  unfold processBytes
  have hs := scanBytes_skip pre hz b [] (0 :: c2)
  simp only [List.nil_append] at hs
  rw [hs, scanBytes_zero]
  by_cases h1 : (scanBytes [] [] c2).2.2 = []
  · simp [h1]
  · by_cases h2 : (scanBytes [] [] c2).2.1.length + (scanBytes [] [] c2).2.2.length >
        MAX_MESSAGE_SIZE
    · simp [h1, h2, List.append_assoc]
    · simp [h1, h2]

theorem processBytes_leading_delim (rest : List Nat) :
    processBytes [] (0 :: rest) = processBytes [] rest := by
  unfold processBytes
  rw [scanBytes_zero]
  simp [delimEvents]

theorem applyFrames_nil (s : Sys) (now : Nat) : applyFrames s now [] = (s, []) := rfl

theorem applyFrames_message (s : Sys) (now : Nat) (m : OsdMessage) (rest : List PipeEvent) :
    applyFrames s now (.message m :: rest) =
      ((applyFrames (handle_message s m now).1 now rest).1,
       (handle_message s m now).2 ++ (applyFrames (handle_message s m now).1 now rest).2) := rfl

theorem applyFrames_skip (s : Sys) (now : Nat) (e : PipeEvent) (he : ∀ m, e ≠ .message m)
    (rest : List PipeEvent) : applyFrames s now (e :: rest) = applyFrames s now rest := by
  cases e with
  | oversized n => rfl
  | wouldExceed => rfl
  | invalidUtf8 => rfl
  | malformed raw => rfl
  | message m => exact absurd rfl (he m)
  | readError => rfl

theorem applyFrames_append : ∀ (a : List PipeEvent) (s : Sys) (now : Nat) (b : List PipeEvent),
    applyFrames s now (a ++ b) =
      ((applyFrames (applyFrames s now a).1 now b).1,
       (applyFrames s now a).2 ++ (applyFrames (applyFrames s now a).1 now b).2)
  | [], s, now, b => by simp [applyFrames_nil]
  | PipeEvent.message m :: rest, s, now, b => by
    rw [List.cons_append, applyFrames_message, applyFrames_message,
      applyFrames_append rest]
    simp [List.append_assoc]
  | PipeEvent.oversized n :: rest, s, now, b => by
    rw [List.cons_append, applyFrames_skip s now _ (fun m h => PipeEvent.noConfusion h) rest,
      applyFrames_skip s now _ (fun m h => PipeEvent.noConfusion h) (rest ++ b),
      applyFrames_append rest]
  | PipeEvent.wouldExceed :: rest, s, now, b => by
    rw [List.cons_append, applyFrames_skip s now _ (fun m h => PipeEvent.noConfusion h) rest,
      applyFrames_skip s now _ (fun m h => PipeEvent.noConfusion h) (rest ++ b),
      applyFrames_append rest]
  | PipeEvent.invalidUtf8 :: rest, s, now, b => by
    rw [List.cons_append, applyFrames_skip s now _ (fun m h => PipeEvent.noConfusion h) rest,
      applyFrames_skip s now _ (fun m h => PipeEvent.noConfusion h) (rest ++ b),
      applyFrames_append rest]
  | PipeEvent.malformed raw :: rest, s, now, b => by
    rw [List.cons_append, applyFrames_skip s now _ (fun m h => PipeEvent.noConfusion h) rest,
      applyFrames_skip s now _ (fun m h => PipeEvent.noConfusion h) (rest ++ b),
      applyFrames_append rest]
  | PipeEvent.readError :: rest, s, now, b => by
    rw [List.cons_append, applyFrames_skip s now _ (fun m h => PipeEvent.noConfusion h) rest,
      applyFrames_skip s now _ (fun m h => PipeEvent.noConfusion h) (rest ++ b),
      applyFrames_append rest]

theorem armAndShow_fresh (s : Sys) (now : Nat) (evs : List UiEvent) (hInv : TimerInv s) :
    armAndShow s now evs =
      (⟨{ s.ui with window_visible := true }, some s.nextId, [(s.nextId, now + 3)],
        s.nextId + 1⟩, evs) := by
  obtain ⟨ui, stored, live, nid⟩ := s
  cases stored with
  | none =>
    have hl : live = [] := hInv
    subst hl
    rfl
  | some id =>
    have hl : ∃ t, live = [(id, t)] := hInv
    obtain ⟨t, ht⟩ := hl
    subst ht
    simp [armAndShow]

theorem armAndShow_shape (s : Sys) (now : Nat) (evs : List UiEvent) :
    (armAndShow s now evs).1.ui = { s.ui with window_visible := true } ∧
    (armAndShow s now evs).1.stored = some s.nextId ∧
    ∃ l, (armAndShow s now evs).1.live = l ++ [(s.nextId, now + 3)] :=
  ⟨rfl, rfl, ⟨_, rfl⟩⟩

theorem sendFrom_zero (ok : Nat → Bool) (p : List Nat) (i : Nat) :
    sendFrom ok p 0 i = ⟨[], i, List.replicate (i - 1) 50, false⟩ := rfl

theorem sendFrom_succ (ok : Nat → Bool) (p : List Nat) (r i : Nat) :
    sendFrom ok p (r + 1) i =
      if ok i then ⟨[p], i + 1, List.replicate i 50, true⟩ else sendFrom ok p r (i + 1) := rfl

theorem sendFrom_skip : ∀ (k i r : Nat) (ok : Nat → Bool) (p : List Nat),
    (∀ j, j < i + k → i ≤ j → ok j = false) →
    sendFrom ok p (r + k) i = sendFrom ok p r (i + k)
  | 0, i, r, ok, p, _ => by simp
  | k + 1, i, r, ok, p, h => by
    rw [show r + (k + 1) = (r + k) + 1 from rfl, sendFrom_succ, h i (by omega) (le_refl i),
      if_neg (by decide)]
    rw [sendFrom_skip k (i + 1) r ok p (fun j h1 h2 => h j (by omega) (by omega))]
    rw [show i + 1 + k = i + (k + 1) from by omega]

theorem fromJsonOsd_three (Y : List Nat) (pm : PartialMsg) (m : OsdMessage)
    (hlen : 1 ≤ Y.length)
    (hpf : ∀ f0 : Nat, parseFields (f0 + 3) (0x22 :: Y) {} = some (pm, []))
    (hasm : assembleMsg pm = some m) :
    fromJsonOsd (0x7B :: 0x22 :: Y) = some m := by
  obtain ⟨f0, hf0⟩ : ∃ f0, (0x22 :: Y).length + 1 = f0 + 3 :=
    ⟨Y.length - 1, by simp; omega⟩
  unfold fromJsonOsd
  rw [skipWs_cons (by decide)]
  dsimp only
  rw [if_pos rfl]
  rw [skipWs_cons (by decide)]
  dsimp only
  rw [if_neg (by decide), hf0, hpf f0]
  dsimp only
  rw [if_pos (show skipWs [] = [] from rfl), hasm]

theorem c2_aux : ∀ (cs : List (List Nat)) (b rem w : List Nat),
    NoZero b → b.length ≤ MAX_MESSAGE_SIZE → NoZero rem →
    NoZero w → w ≠ [] → w.length ≤ MAX_MESSAGE_SIZE →
    joinAll cs = rem ++ 0 :: (w ++ [0]) →
    ∃ evA, (processChunks b cs).1 = evA ++ [classifyFrame w] ∧
      ((b ++ rem).length > MAX_MESSAGE_SIZE → OversizeIn evA)
  | [], b, rem, w, _, _, _, _, _, _, hJ => by
    exfalso
    have h0 : ([] : List Nat) = rem ++ 0 :: (w ++ [0]) := hJ
    simp at h0
  | c :: cs, b, rem, w, hzb, hlb, hzrem, hzw, hwne, hlw, hJ => by
    have hJ' : c ++ joinAll cs = rem ++ 0 :: (w ++ [0]) := by
      rw [← hJ]; rfl
    have hsplit : (∃ a, rem = c ++ a ∧ joinAll cs = a ++ 0 :: (w ++ [0])) ∨
        (∃ c2, c = rem ++ 0 :: c2 ∧ c2 ++ joinAll cs = w ++ [0]) := by
      rcases List.append_eq_append_iff.1 hJ' with ⟨a, ha, hb2⟩ | ⟨d, hc, hcd⟩
      · exact Or.inl ⟨a, ha, hb2⟩
      · cases d with
        | nil =>
          refine Or.inl ⟨[], by simp [hc], ?_⟩
          simp only [List.nil_append] at hcd
          simp [hcd.symm]
        | cons z c2 =>
          rw [List.cons_append] at hcd
          injection hcd with h1 h2
          exact Or.inr ⟨c2, by rw [hc, ← h1], h2.symm⟩
    rcases hsplit with ⟨a, ha, hb2⟩ | ⟨c2, hc, hd⟩
    · have hzc : NoZero c := fun x hx => hzrem x (by rw [ha]; exact List.mem_append.2 (Or.inl hx))
      have hza : NoZero a := fun x hx => hzrem x (by rw [ha]; exact List.mem_append.2 (Or.inr hx))
      rw [processChunks_cons]
      by_cases hce : c = []
      · subst hce
        have hpb : processBytes b [] = ([], b) := by
          rw [processBytes_nozero b [] noZero_nil]; simp
        rw [hpb]
        simp only [List.nil_append] at ha
        obtain ⟨evA, h1, h2⟩ := c2_aux cs b a w hzb hlb hza hzw hwne hlw hb2
        refine ⟨evA, by simp [h1], ?_⟩
        rw [ha]
        exact h2
      · by_cases hover : b.length + c.length > MAX_MESSAGE_SIZE
        · have hpb : processBytes b c = ([.wouldExceed], []) := by
            rw [processBytes_nozero b c hzc]; simp [hce, hover]
          rw [hpb]
          obtain ⟨evA, h1, h2⟩ := c2_aux cs [] a w noZero_nil (by simp) hza hzw hwne hlw hb2
          exact ⟨.wouldExceed :: evA, by simp [h1], fun _ => Or.inl (List.mem_cons_self _ _)⟩
        · have hpb : processBytes b c = ([], b ++ c) := by
            rw [processBytes_nozero b c hzc]; simp [hce, hover]
          rw [hpb]
          push_neg at hover
          obtain ⟨evA, h1, h2⟩ := c2_aux cs (b ++ c) a w (noZero_append hzb hzc)
            (by simp only [List.length_append]; omega) hza hzw hwne hlw hb2
          refine ⟨evA, by simp [h1], fun hlen => ?_⟩
          apply h2
          rw [ha] at hlen
          simp only [List.length_append] at hlen ⊢
          omega
    · rw [processChunks_cons, hc, processBytes_delim_split b rem c2 hzrem]
      have hstageB : processChunks [] (c2 :: cs) = ([classifyFrame w], []) := by
        have hJB : joinAll (c2 :: cs) = w ++ [0] := by
          rw [show joinAll (c2 :: cs) = c2 ++ joinAll cs from rfl, hd]
        have hB : Bounded ([] ++ joinAll (c2 :: cs)) := by
          rw [List.nil_append, hJB]
          exact bounded_cons hzw hlw bounded_nil
        rw [processChunks_eq (c2 :: cs) [] noZero_nil hB, hJB,
          processBytes_one_frame hzw hwne hlw]
      have hPQ : (processBytes [] c2).1 ++ (processChunks (processBytes [] c2).2 cs).1 =
          [classifyFrame w] := by
        have hh := hstageB
        rw [processChunks_cons] at hh
        exact congrArg Prod.fst hh
      refine ⟨delimEvents (b ++ rem), ?_, fun hlen => ?_⟩
      · dsimp only
        rw [List.append_assoc, hPQ]
      · have hne2 : b ++ rem ≠ [] := by
          intro h0
          rw [h0] at hlen
          simp [MAX_MESSAGE_SIZE] at hlen
        unfold delimEvents
        rw [if_neg hne2, if_pos hlen]
        exact Or.inr ⟨(b ++ rem).length, List.mem_singleton_self _⟩

/-- Claim C1: for every valid message M, serializing M and appending the
single NUL delimiter, then feeding the bytes to the decoder under any
chunking of the stream into reads, yields exactly one completed frame
decoding back to M, with the pending buffer empty afterwards. -/
theorem claim_C1 (M : OsdMessage) (hM : ValidMessage M) (cs : List (List Nat))
    (hcs : joinAll cs = serializeOsd M ++ [0]) :
    processChunks [] cs = ([.message M], []) := by
  obtain ⟨ht, htx, hd, hvv, hmx, hlen⟩ := hM
  have hz : NoZero (serializeOsd M) := noZero_serializeOsd M
  have hB : Bounded ([] ++ joinAll cs) := by
    rw [List.nil_append, hcs]
    exact bounded_cons hz hlen bounded_nil
  rw [processChunks_eq cs [] noZero_nil hB, hcs,
    processBytes_one_frame hz (by simp [serializeOsd]) hlen,
    classifyFrame_serializeOsd M ⟨ht, htx, hd, hvv, hmx, hlen⟩]

theorem claim_C1_witness :
    processChunks []
      [serializeOsd ⟨ascii "text", none, none, some (ascii "hi"), none, none⟩ ++ [0]] =
      ([.message ⟨ascii "text", none, none, some (ascii "hi"), none, none⟩], []) :=
  claim_C1 ⟨ascii "text", none, none, some (ascii "hi"), none, none⟩
    ⟨by decide, (by intro s hs; injection hs with h; subst h; decide),
     (by intro s hs; cases hs), (by intro n hn; cases hn), (by intro n hn; cases hn),
     by decide⟩
    [serializeOsd ⟨ascii "text", none, none, some (ascii "hi"), none, none⟩ ++ [0]]
    (by simp [joinAll])

/-- Claim C3: three valid messages written in order M1, M2, M3 as delimited
frames on one channel are decoded, under every chunking of the byte stream
into reads, to the event list message M1, message M2, message M3, and
applying those frames runs handle_message in exactly that order. -/
theorem claim_C3 (M1 M2 M3 : OsdMessage) (h1 : ValidMessage M1) (h2 : ValidMessage M2)
    (h3 : ValidMessage M3) (cs : List (List Nat)) (s : Sys) (now : Nat)
    (hcs : joinAll cs =
      serializeOsd M1 ++ 0 :: (serializeOsd M2 ++ 0 :: (serializeOsd M3 ++ [0]))) :
    (processChunks [] cs).1 = [.message M1, .message M2, .message M3] ∧
    (applyFrames s now (processChunks [] cs).1).1 =
      (handle_message (handle_message (handle_message s M1 now).1 M2 now).1 M3 now).1 := by
  obtain ⟨ht1, htx1, hd1, hv1, hm1, hl1⟩ := h1
  obtain ⟨ht2, htx2, hd2, hv2, hm2, hl2⟩ := h2
  obtain ⟨ht3, htx3, hd3, hv3, hm3, hl3⟩ := h3
  have hz1 := noZero_serializeOsd M1
  have hz2 := noZero_serializeOsd M2
  have hz3 := noZero_serializeOsd M3
  have hcanon : canon []
      (serializeOsd M1 ++ 0 :: (serializeOsd M2 ++ 0 :: (serializeOsd M3 ++ [0]))) =
      ([.message M1, .message M2, .message M3], []) := by
    rw [canon_frame _ _ hz1, canon_frame _ _ hz2, canon_frame _ _ hz3, canon_nil,
      delimEvents_frame (by simp [serializeOsd]) hl1,
      delimEvents_frame (by simp [serializeOsd]) hl2,
      delimEvents_frame (by simp [serializeOsd]) hl3,
      classifyFrame_serializeOsd M1 ⟨ht1, htx1, hd1, hv1, hm1, hl1⟩,
      classifyFrame_serializeOsd M2 ⟨ht2, htx2, hd2, hv2, hm2, hl2⟩,
      classifyFrame_serializeOsd M3 ⟨ht3, htx3, hd3, hv3, hm3, hl3⟩]
    simp
  have hB : Bounded ([] ++ joinAll cs) := by
    rw [List.nil_append, hcs]
    exact bounded_cons hz1 hl1 (bounded_cons hz2 hl2 (bounded_cons hz3 hl3 bounded_nil))
  have hev : processChunks [] cs = ([.message M1, .message M2, .message M3], []) := by
    rw [processChunks_eq cs [] noZero_nil hB, hcs,
      processBytes_eq_canon _ _ (by rw [hcanon]; simp [MAX_MESSAGE_SIZE]), hcanon]
  refine ⟨by rw [hev], ?_⟩
  rw [hev]
  simp [applyFrames_message, applyFrames_nil]

theorem claim_C3_witness :
    (processChunks []
      [serializeOsd ⟨ascii "volume", some 30, some 100, none, none, none⟩ ++ 0 ::
        (serializeOsd ⟨ascii "brightness", some 50, some 100, none, none, none⟩ ++ 0 ::
         (serializeOsd ⟨ascii "text", none, none, some (ascii "hey"), none, none⟩ ++ [0]))]).1 =
      [.message ⟨ascii "volume", some 30, some 100, none, none, none⟩,
       .message ⟨ascii "brightness", some 50, some 100, none, none, none⟩,
       .message ⟨ascii "text", none, none, some (ascii "hey"), none, none⟩] ∧
    (applyFrames initialSys 0 (processChunks []
      [serializeOsd ⟨ascii "volume", some 30, some 100, none, none, none⟩ ++ 0 ::
        (serializeOsd ⟨ascii "brightness", some 50, some 100, none, none, none⟩ ++ 0 ::
         (serializeOsd ⟨ascii "text", none, none, some (ascii "hey"), none, none⟩ ++ [0]))]).1).1 =
      (handle_message (handle_message (handle_message initialSys
          ⟨ascii "volume", some 30, some 100, none, none, none⟩ 0).1
        ⟨ascii "brightness", some 50, some 100, none, none, none⟩ 0).1
        ⟨ascii "text", none, none, some (ascii "hey"), none, none⟩ 0).1 :=
  claim_C3 ⟨ascii "volume", some 30, some 100, none, none, none⟩
    ⟨ascii "brightness", some 50, some 100, none, none, none⟩
    ⟨ascii "text", none, none, some (ascii "hey"), none, none⟩
    ⟨by decide, (by intro s hs; cases hs), (by intro s hs; cases hs),
     (by intro n hn; injection hn with h; subst h; decide),
     (by intro n hn; injection hn with h; subst h; decide), by decide⟩
    ⟨by decide, (by intro s hs; cases hs), (by intro s hs; cases hs),
     (by intro n hn; injection hn with h; subst h; decide),
     (by intro n hn; injection hn with h; subst h; decide), by decide⟩
    ⟨by decide, (by intro s hs; injection hs with h; subst h; decide),
     (by intro s hs; cases hs), (by intro n hn; cases hn), (by intro n hn; cases hn),
     by decide⟩
    _ initialSys 0 (by simp [joinAll])

/-- Claim C6: a parsed message whose type tag is not volume, brightness or
text makes handle_message a no-op transition: the state is returned
unchanged and the only effect is the unknown-type warning. -/
theorem claim_C6 (s : Sys) (m : OsdMessage) (now : Nat) (h : ¬ recognizedType m) :
    handle_message s m now = (s, [UiEvent.warnUnknownType m.message_type]) := by
  unfold recognizedType at h
  push_neg at h
  obtain ⟨h1, h2, h3⟩ := h
  unfold handle_message
  rw [if_neg h1, if_neg h2, if_neg h3]

theorem claim_C6_witness :
    handle_message initialSys ⟨ascii "bogus", none, none, none, none, none⟩ 0 =
      (initialSys, [UiEvent.warnUnknownType (ascii "bogus")]) :=
  claim_C6 initialSys ⟨ascii "bogus", none, none, none, none, none⟩ 0
    (by intro hr; rcases hr with h | h | h <;> exact absurd h (by decide))

/-- Claim C8: the consumer read loop never terminates: whatever the outcome
of one poll step (end of stream, would-block, another read error, or any
decoded data including oversized, invalid-UTF-8 and malformed frames), the
idle closure returns Continue, so the same descriptor keeps being polled. -/
theorem claim_C8 (st : ConsumerState) (r : ReadResult) (now : Nat) :
    (pollStep st r now).2.2.2 = GControl.Continue := by
  cases r with
  | ok bytes => cases bytes <;> rfl
  | err wb => cases wb <;> rfl

/-- Claim C9: a delimiter byte arriving while the pending buffer is empty
and no bytes precede it in the current chunk forms an empty frame, which
produces no message, no error report, and no display-state change: the
poll step behaves exactly as if the delimiter byte were absent. -/
theorem claim_C9 (st : ConsumerState) (h : st.buffer = []) (rest : List Nat) (now : Nat) :
    pollStep st (.ok (0 :: rest)) now = pollStep st (.ok rest) now := by
  obtain ⟨buf, sys⟩ := st
  have hb : buf = [] := h
  subst hb
  cases rest with
  | nil => rfl
  | cons x r2 =>
    exact congrArg
      (fun d => ((⟨d.2, (applyFrames sys now d.1).1⟩ : ConsumerState),
        d.1, (applyFrames sys now d.1).2, GControl.Continue))
      (processBytes_leading_delim (x :: r2))

theorem claim_C9_witness :
    pollStep ⟨[], initialSys⟩ (.ok [0, 0]) 5 = pollStep ⟨[], initialSys⟩ (.ok [0]) 5 :=
  claim_C9 ⟨[], initialSys⟩ rfl [0] 5

/-- Claim C4: after handle_message on a recognized message kind, the stored
timer id and the registered timers form exactly one pending 3-second hide
timer (the previously stored one, if any, was removed first), the single
timer invariant is preserved, the window is visible, and firing that timer
hides the window and leaves no stored or registered timer, so the surface
becomes idle exactly once, 3 seconds after the last message. -/
theorem claim_C4 (s : Sys) (m : OsdMessage) (now : Nat) (hInv : TimerInv s)
    (hrec : recognizedType m) :
    (handle_message s m now).1.stored = some s.nextId ∧
    (handle_message s m now).1.live = [(s.nextId, now + 3)] ∧
    TimerInv (handle_message s m now).1 ∧
    (handle_message s m now).1.ui.window_visible = true ∧
    fireTimer (handle_message s m now).1 s.nextId (now + 3) =
      ⟨{ (handle_message s m now).1.ui with window_visible := false }, none, [],
        s.nextId + 1⟩ := by
  have hform : ∃ (u : UiState) (evs : List UiEvent),
      handle_message s m now = armAndShow { s with ui := u } now evs := by
    unfold handle_message
    rcases hrec with ht | ht | ht
    · rw [ht, if_pos rfl]
      cases m.value with
      | none => exact ⟨s.ui, [.warnMissingVolumeFields], rfl⟩
      | some v =>
        cases m.max_value with
        | none => exact ⟨s.ui, [.warnMissingVolumeFields], rfl⟩
        | some mx => exact ⟨updateVolume s.ui v mx m.muted m.device_name, [], rfl⟩
    · rw [ht, if_neg (by decide), if_pos rfl]
      cases m.value with
      | none => exact ⟨s.ui, [.warnMissingBrightnessFields], rfl⟩
      | some v =>
        cases m.max_value with
        | none => exact ⟨s.ui, [.warnMissingBrightnessFields], rfl⟩
        | some mx => exact ⟨updateBrightness s.ui v mx, [], rfl⟩
    · rw [ht, if_neg (by decide), if_neg (by decide), if_pos rfl]
      cases m.text with
      | none => exact ⟨s.ui, [.warnMissingText], rfl⟩
      | some t => exact ⟨updateText s.ui t, [], rfl⟩
  obtain ⟨u, evs, heq⟩ := hform
  have hInv2 : TimerInv { s with ui := u } := hInv
  rw [heq, armAndShow_fresh _ now evs hInv2]
  refine ⟨rfl, rfl, ⟨now + 3, rfl⟩, rfl, ?_⟩
  simp [fireTimer]

theorem claim_C4_witness :
    (handle_message initialSys ⟨ascii "volume", some 50, some 100, none, none, none⟩ 10).1.stored =
      some initialSys.nextId ∧
    (handle_message initialSys ⟨ascii "volume", some 50, some 100, none, none, none⟩ 10).1.live =
      [(initialSys.nextId, 10 + 3)] ∧
    TimerInv (handle_message initialSys
      ⟨ascii "volume", some 50, some 100, none, none, none⟩ 10).1 ∧
    (handle_message initialSys
      ⟨ascii "volume", some 50, some 100, none, none, none⟩ 10).1.ui.window_visible = true ∧
    fireTimer (handle_message initialSys
        ⟨ascii "volume", some 50, some 100, none, none, none⟩ 10).1
        initialSys.nextId (10 + 3) =
      ⟨{ (handle_message initialSys
          ⟨ascii "volume", some 50, some 100, none, none, none⟩ 10).1.ui with
          window_visible := false }, none, [], initialSys.nextId + 1⟩ :=
  claim_C4 initialSys ⟨ascii "volume", some 50, some 100, none, none, none⟩ 10 rfl (Or.inl rfl)

/-- Claim C5 (corrected): a volume or brightness message with value or
max_value absent skips the numeric payload update and logs a warning, but
is not dropped: handle_message still falls through to the common tail, so
the rendered payload widgets are untouched while the window is shown, the
stored timeout is replaced and a fresh 3-second hide timer is armed. -/
theorem claim_C5 (s : Sys) (m : OsdMessage) (now : Nat)
    (htype : m.message_type = ascii "volume" ∨ m.message_type = ascii "brightness")
    (hmiss : m.value = none ∨ m.max_value = none) :
    handle_message s m now =
      armAndShow s now
        [if m.message_type = ascii "volume" then UiEvent.warnMissingVolumeFields
         else UiEvent.warnMissingBrightnessFields] ∧
    (handle_message s m now).1.ui = { s.ui with window_visible := true } ∧
    (handle_message s m now).1.stored = some s.nextId ∧
    (handle_message s m now).1.live.getLast? = some (s.nextId, now + 3) := by
  have h1 : handle_message s m now = armAndShow s now
      [if m.message_type = ascii "volume" then UiEvent.warnMissingVolumeFields
       else UiEvent.warnMissingBrightnessFields] := by
    rcases htype with ht | ht
    · unfold handle_message
      rw [ht, if_pos (show ascii "volume" = ascii "volume" from rfl),
        if_pos (show ascii "volume" = ascii "volume" from rfl)]
      rcases hmiss with hv | hw
      · rw [hv]
      · rw [hw]; cases m.value <;> rfl
    · unfold handle_message
      rw [ht, if_neg (show ¬ (ascii "brightness" = ascii "volume") from by decide),
        if_neg (show ¬ (ascii "brightness" = ascii "volume") from by decide),
        if_pos (show ascii "brightness" = ascii "brightness" from rfl)]
      rcases hmiss with hv | hw
      · rw [hv]
      · rw [hw]; cases m.value <;> rfl
  obtain ⟨hu, hst, l, hl⟩ := armAndShow_shape s now
    [if m.message_type = ascii "volume" then UiEvent.warnMissingVolumeFields
     else UiEvent.warnMissingBrightnessFields]
  refine ⟨h1, ?_, ?_, ?_⟩
  · rw [h1]; exact hu
  · rw [h1]; exact hst
  · rw [h1, hl]
    exact List.getLast?_concat _

theorem claim_C5_counterexample :
    (handle_message initialSys ⟨ascii "volume", none, some 100, none, none, none⟩
      0).1.ui.window_visible = true ∧
    (handle_message initialSys ⟨ascii "volume", none, some 100, none, none, none⟩
      0).1.live = [(0, 3)] ∧
    (handle_message initialSys ⟨ascii "volume", none, some 100, none, none, none⟩
      0).1.stored = some 0 :=
  ⟨rfl, rfl, rfl⟩

theorem claim_C5_witness :
    handle_message initialSys ⟨ascii "brightness", some 5, none, none, none, none⟩ 2 =
      armAndShow initialSys 2
        [if (⟨ascii "brightness", some 5, none, none, none, none⟩ :
            OsdMessage).message_type = ascii "volume" then UiEvent.warnMissingVolumeFields
         else UiEvent.warnMissingBrightnessFields] ∧
    (handle_message initialSys ⟨ascii "brightness", some 5, none, none, none, none⟩ 2).1.ui =
      { initialSys.ui with window_visible := true } ∧
    (handle_message initialSys
      ⟨ascii "brightness", some 5, none, none, none, none⟩ 2).1.stored =
      some initialSys.nextId ∧
    (handle_message initialSys
      ⟨ascii "brightness", some 5, none, none, none, none⟩ 2).1.live.getLast? =
      some (initialSys.nextId, 2 + 3) :=
  claim_C5 initialSys ⟨ascii "brightness", some 5, none, none, none, none⟩ 2
    (Or.inr rfl) (Or.inr rfl)

/-- Claim C7: the producer send serializes the message, appends the single
NUL delimiter and opens the channel for writing with a bounded retry: if no
attempt finds a reader it performs no write and fails as undelivered after
5 attempts with 50 ms waits between them, and if attempt i is the first to
find a reader it performs exactly one write call of the full delimited
payload, after i prior waits. -/
theorem claim_C7 (openOk : Nat → Bool) (m : OsdMessage) :
    ((∀ i, i < 5 → openOk i = false) →
      send_message openOk m = ⟨[], 5, List.replicate 4 50, false⟩) ∧
    (∀ i, i < 5 → openOk i = true → (∀ j, j < i → openOk j = false) →
      send_message openOk m = ⟨[serializeOsd m ++ [0]], i + 1, List.replicate i 50, true⟩) := by
  constructor
  · intro h
    unfold send_message
    rw [show (5 : Nat) = 0 + 5 from rfl,
      sendFrom_skip 5 0 0 openOk (serializeOsd m ++ [0]) (fun j h1 _ => h j (by omega))]
    rfl
  · intro i hi hok hprev
    unfold send_message
    have h5 : (5 : Nat) = 5 - i - 1 + 1 + i := by omega
    rw [h5, sendFrom_skip i 0 (5 - i - 1 + 1) openOk (serializeOsd m ++ [0])
      (fun j h1 _ => hprev j (by omega))]
    rw [show 0 + i = i from by omega, sendFrom_succ, hok, if_pos rfl]

theorem claim_C7_witness :
    send_message (fun j => decide (j = 2))
        ⟨ascii "text", none, none, some (ascii "yo"), none, none⟩ =
      ⟨[serializeOsd ⟨ascii "text", none, none, some (ascii "yo"), none, none⟩ ++ [0]], 3,
        List.replicate 2 50, true⟩ ∧
    send_message (fun _ => false)
        ⟨ascii "text", none, none, some (ascii "yo"), none, none⟩ =
      ⟨[], 5, List.replicate 4 50, false⟩ :=
  ⟨(claim_C7 (fun j => decide (j = 2))
      ⟨ascii "text", none, none, some (ascii "yo"), none, none⟩).2 2 (by omega) (by decide)
      (fun j hj => by interval_cases j <;> rfl),
   (claim_C7 (fun _ => false)
      ⟨ascii "text", none, none, some (ascii "yo"), none, none⟩).1 (fun i _ => rfl)⟩

/-- Claim C10: the CLI audio subcommand with the mute flag sends exactly the
text-kind JSON with the Audio Muted label, discarding the volume and maximum,
while without the flag it sends the volume-kind JSON carrying value and
max_value and no muted member; both parse back to the corresponding server
message. -/
theorem claim_C10 (v mv : Int) (hv : i32Ok v = true) (hm : i32Ok mv = true) :
    fromJsonOsd (clientAudioMessage v mv true) =
      some ⟨ascii "text", none, none, some (ascii "Audio Muted"), none, none⟩ ∧
    fromJsonOsd (clientAudioMessage v mv false) =
      some ⟨ascii "volume", some v, some mv, none, none, none⟩ := by
  constructor
  · show fromJsonOsd audioMuteBytes = _
    decide
  · have hpf : ∀ f0 : Nat, parseFields (f0 + 3)
        (0x22 :: (ascii "max_value" ++ 0x22 :: 0x3A :: (jOptInt (some mv) ++ 0x2C ::
         (0x22 :: (ascii "type" ++ 0x22 :: 0x3A :: (jStr (ascii "volume") ++ 0x2C ::
         (0x22 :: (ascii "value" ++ 0x22 :: 0x3A :: (jOptInt (some v) ++ 0x7D ::
           ([] : List Nat)))))))))) {} =
        some (⟨some (ascii "volume"), some (some v), some (some mv), none, none, none⟩, []) := by
      intro f0
      rw [show f0 + 3 = (f0 + 2) + 1 from rfl]
      rw [parseFields_enter (f0 + 2) (ascii "max_value") (jOptInt (some mv)) _
        {} ⟨none, none, some (some mv), none, none, none⟩
        (jvalInt (some mv)) 0x2C (by decide)
        (parseJValue_jOptInt _ (numStop_comma _)) (skipWs_jOptInt _ _)
        (by exact setField_max _ rfl _ (fun n hn => (Option.some.inj hn) ▸ hm)) (by decide)]
      rw [if_pos rfl]
      rw [show f0 + 2 = (f0 + 1) + 1 from rfl]
      rw [parseFields_enter (f0 + 1) (ascii "type") (jStr (ascii "volume")) _
        ⟨none, none, some (some mv), none, none, none⟩
        ⟨some (ascii "volume"), none, some (some mv), none, none, none⟩
        (.str (ascii "volume")) 0x2C (by decide)
        (parseJValue_jStr _ _) (skipWs_jStr _ _)
        (by exact setField_type _ rfl _) (by decide)]
      rw [if_pos rfl]
      rw [parseFields_enter f0 (ascii "value") (jOptInt (some v)) []
        ⟨some (ascii "volume"), none, some (some mv), none, none, none⟩
        ⟨some (ascii "volume"), some (some v), some (some mv), none, none, none⟩
        (jvalInt (some v)) 0x7D (by decide)
        (parseJValue_jOptInt _ (numStop_brace _)) (skipWs_jOptInt _ _)
        (by exact setField_value _ rfl _ (fun n hn => (Option.some.inj hn) ▸ hv)) (by decide)]
      rw [if_neg (by decide), if_pos rfl]
    have hshape : clientAudioMessage v mv false = 0x7B :: 0x22 ::
        (ascii "max_value" ++ 0x22 :: 0x3A :: (jOptInt (some mv) ++ 0x2C ::
         (0x22 :: (ascii "type" ++ 0x22 :: 0x3A :: (jStr (ascii "volume") ++ 0x2C ::
         (0x22 :: (ascii "value" ++ 0x22 :: 0x3A :: (jOptInt (some v) ++ 0x7D ::
           ([] : List Nat))))))))) := by
      simp [clientAudioMessage, audioVolumeBytes, jOptInt, ascii]
    rw [hshape]
    exact fromJsonOsd_three _ _ _ (by simp; omega) hpf rfl

theorem claim_C10_witness :
    fromJsonOsd (clientAudioMessage 45 100 true) =
      some ⟨ascii "text", none, none, some (ascii "Audio Muted"), none, none⟩ ∧
    fromJsonOsd (clientAudioMessage 45 100 false) =
      some ⟨ascii "volume", some 45, some 100, none, none, none⟩ :=
  claim_C10 45 100 (by decide) (by decide)

/-- Claim C2 (corrected): for every stream made of a NUL-free run longer
than MAX_MESSAGE_SIZE, a delimiter, and a well-formed frame encoding a
valid message M, and for every chunking into reads: at least one oversize
condition is reported (a mid-chunk would-exceed discard or an oversized
report at the delimiter) and the following frame still decodes to M and is
applied by handle_message; the run, however, is not necessarily discarded
in its entirety — its bytes arriving after a mid-chunk discard restart a
fresh frame, which may itself be classified and applied. -/
theorem claim_C2 (run : List Nat) (M : OsdMessage) (cs : List (List Nat))
    (hzr : NoZero run) (hlr : run.length > MAX_MESSAGE_SIZE) (hM : ValidMessage M)
    (hcs : joinAll cs = run ++ 0 :: (serializeOsd M ++ [0])) :
    ∃ evA, (processChunks [] cs).1 = evA ++ [PipeEvent.message M] ∧ OversizeIn evA ∧
      ∀ (s : Sys) (now : Nat),
        (applyFrames s now (processChunks [] cs).1).1 =
          (handle_message (applyFrames s now evA).1 M now).1 := by
  obtain ⟨ht, htx, hd, hvv, hmx, hlen⟩ := hM
  obtain ⟨evA, h1, h2⟩ := c2_aux cs [] run (serializeOsd M) noZero_nil (by simp)
    hzr (noZero_serializeOsd M) (by simp [serializeOsd]) hlen hcs
  rw [classifyFrame_serializeOsd M ⟨ht, htx, hd, hvv, hmx, hlen⟩] at h1
  refine ⟨evA, h1, h2 (by simpa using hlr), ?_⟩
  intro s now
  rw [h1, applyFrames_append evA s now [PipeEvent.message M], applyFrames_message]
  rfl

theorem claim_C2_witness :
    ∃ evA, (processChunks [] [List.replicate 8193 0x31 ++ 0 ::
        (serializeOsd ⟨ascii "text", none, none, some (ascii "ok"), none, none⟩ ++ [0])]).1 =
      evA ++ [PipeEvent.message ⟨ascii "text", none, none, some (ascii "ok"), none, none⟩] ∧
      OversizeIn evA ∧
      ∀ (s : Sys) (now : Nat),
        (applyFrames s now (processChunks [] [List.replicate 8193 0x31 ++ 0 ::
          (serializeOsd ⟨ascii "text", none, none, some (ascii "ok"), none, none⟩ ++
            [0])]).1).1 =
          (handle_message (applyFrames s now evA).1
            ⟨ascii "text", none, none, some (ascii "ok"), none, none⟩ now).1 :=
  claim_C2 (List.replicate 8193 0x31)
    ⟨ascii "text", none, none, some (ascii "ok"), none, none⟩
    [List.replicate 8193 0x31 ++ 0 ::
      (serializeOsd ⟨ascii "text", none, none, some (ascii "ok"), none, none⟩ ++ [0])]
    (fun x hx => by rw [List.eq_of_mem_replicate hx]; decide)
    (by rw [List.length_replicate]; decide)
    ⟨by decide, (by intro s hs; injection hs with h; subst h; decide),
     (by intro s hs; cases hs), (by intro n hn; cases hn), (by intro n hn; cases hn),
     by decide⟩
    (by simp only [joinAll, List.append_nil])

theorem validMsg_in : ValidMessage ⟨ascii "text", none, none, some (ascii "in"), none, none⟩ :=
  ⟨by decide, (by intro s hs; injection hs with h; subst h; decide),
   (by intro s hs; cases hs), (by intro n hn; cases hn), (by intro n hn; cases hn),
   by decide⟩

theorem validMsg_go : ValidMessage ⟨ascii "text", none, none, some (ascii "go"), none, none⟩ :=
  ⟨by decide, (by intro s hs; injection hs with h; subst h; decide),
   (by intro s hs; cases hs), (by intro n hn; cases hn), (by intro n hn; cases hn),
   by decide⟩

theorem claim_C2_counterexample :
    joinAll [List.replicate 1024 0x31, List.replicate 1024 0x31, List.replicate 1024 0x31,
        List.replicate 1024 0x31, List.replicate 1024 0x31, List.replicate 1024 0x31,
        List.replicate 1024 0x31, List.replicate 1024 0x31, [0x31],
        serializeOsd ⟨ascii "text", none, none, some (ascii "in"), none, none⟩ ++ [0],
        serializeOsd ⟨ascii "text", none, none, some (ascii "go"), none, none⟩ ++ [0]] =
      (List.replicate 8193 0x31 ++
        serializeOsd ⟨ascii "text", none, none, some (ascii "in"), none, none⟩) ++ 0 ::
        (serializeOsd ⟨ascii "text", none, none, some (ascii "go"), none, none⟩ ++ [0]) ∧
    (processChunks [] [List.replicate 1024 0x31, List.replicate 1024 0x31,
        List.replicate 1024 0x31, List.replicate 1024 0x31, List.replicate 1024 0x31,
        List.replicate 1024 0x31, List.replicate 1024 0x31, List.replicate 1024 0x31, [0x31],
        serializeOsd ⟨ascii "text", none, none, some (ascii "in"), none, none⟩ ++ [0],
        serializeOsd ⟨ascii "text", none, none, some (ascii "go"), none, none⟩ ++ [0]]).1 =
      [PipeEvent.wouldExceed,
       PipeEvent.message ⟨ascii "text", none, none, some (ascii "in"), none, none⟩,
       PipeEvent.message ⟨ascii "text", none, none, some (ascii "go"), none, none⟩] := by
  have hz31 : ∀ n : Nat, NoZero (List.replicate n 0x31) := fun n x hx => by
    rw [List.eq_of_mem_replicate hx]; decide
  constructor
  · rw [show (8193 : Nat) =
      1024 + (1024 + (1024 + (1024 + (1024 + (1024 + (1024 + (1024 + 1))))))) from rfl]
    simp only [joinAll, List.replicate_add, List.replicate_one, List.append_assoc,
      List.singleton_append, List.cons_append, List.append_nil, List.nil_append]
  · have hstep : ∀ k : Nat, k + 1024 ≤ 8192 →
        processBytes (List.replicate k 0x31) (List.replicate 1024 0x31) =
          ([], List.replicate (k + 1024) 0x31) := by
      intro k hk
      rw [processBytes_nozero _ _ (hz31 1024)]
      have hne : ¬ (List.replicate 1024 0x31 = ([] : List Nat)) := by simp
      have hfit : ¬ ((List.replicate k 0x31).length + (List.replicate 1024 0x31).length >
          MAX_MESSAGE_SIZE) := by
        simp only [List.length_replicate, MAX_MESSAGE_SIZE]
        omega
      rw [if_neg hne, if_neg hfit, ← List.replicate_add]
    have hpb1 : processBytes [] (List.replicate 1024 0x31) =
        ([], List.replicate 1024 0x31) := hstep 0 (by omega)
    have hpb2 : processBytes (List.replicate 1024 0x31) (List.replicate 1024 0x31) =
        ([], List.replicate 2048 0x31) := hstep 1024 (by omega)
    have hpb3 : processBytes (List.replicate 2048 0x31) (List.replicate 1024 0x31) =
        ([], List.replicate 3072 0x31) := hstep 2048 (by omega)
    have hpb4 : processBytes (List.replicate 3072 0x31) (List.replicate 1024 0x31) =
        ([], List.replicate 4096 0x31) := hstep 3072 (by omega)
    have hpb5 : processBytes (List.replicate 4096 0x31) (List.replicate 1024 0x31) =
        ([], List.replicate 5120 0x31) := hstep 4096 (by omega)
    have hpb6 : processBytes (List.replicate 5120 0x31) (List.replicate 1024 0x31) =
        ([], List.replicate 6144 0x31) := hstep 5120 (by omega)
    have hpb7 : processBytes (List.replicate 6144 0x31) (List.replicate 1024 0x31) =
        ([], List.replicate 7168 0x31) := hstep 6144 (by omega)
    have hpb8 : processBytes (List.replicate 7168 0x31) (List.replicate 1024 0x31) =
        ([], List.replicate 8192 0x31) := hstep 7168 (by omega)
    have hpb9 : processBytes (List.replicate 8192 0x31) [0x31] =
        ([PipeEvent.wouldExceed], []) := by
      rw [processBytes_nozero _ _ (fun x hx => by rw [List.mem_singleton.1 hx]; decide)]
      have hne : ¬ ([0x31] = ([] : List Nat)) := by decide
      have hov : (List.replicate 8192 0x31).length + ([0x31] : List Nat).length >
          MAX_MESSAGE_SIZE := by
        rw [List.length_replicate]; decide
      rw [if_neg hne, if_pos hov]
    have hMA := validMsg_in
    have hMB := validMsg_go
    have hpbA : processBytes []
        (serializeOsd ⟨ascii "text", none, none, some (ascii "in"), none, none⟩ ++ [0]) =
        ([PipeEvent.message ⟨ascii "text", none, none, some (ascii "in"), none, none⟩],
          []) := by
      rw [processBytes_one_frame (noZero_serializeOsd _) (by simp [serializeOsd])
        hMA.2.2.2.2.2, classifyFrame_serializeOsd _ hMA]
    have hpbB : processBytes []
        (serializeOsd ⟨ascii "text", none, none, some (ascii "go"), none, none⟩ ++ [0]) =
        ([PipeEvent.message ⟨ascii "text", none, none, some (ascii "go"), none, none⟩],
          []) := by
      rw [processBytes_one_frame (noZero_serializeOsd _) (by simp [serializeOsd])
        hMB.2.2.2.2.2, classifyFrame_serializeOsd _ hMB]
    rw [processChunks_step _ _ _ _ _ hpb1, processChunks_step _ _ _ _ _ hpb2,
      processChunks_step _ _ _ _ _ hpb3, processChunks_step _ _ _ _ _ hpb4,
      processChunks_step _ _ _ _ _ hpb5, processChunks_step _ _ _ _ _ hpb6,
      processChunks_step _ _ _ _ _ hpb7, processChunks_step _ _ _ _ _ hpb8,
      processChunks_step _ _ _ _ _ hpb9, processChunks_step _ _ _ _ _ hpbA,
      processChunks_step _ _ _ _ _ hpbB, processChunks_nil]
    simp
